import Mathlib

/-!
Shallow embedding of the validation core of `src/utils/dataProcessing.ts`
(sheetseer).  JavaScript strings are Lean `String`s, JS numbers are modelled
exactly: integer-valued row cells as `Int`, parsed/derived numbers as `ℚ`
(IEEE-754 rounding, `NaN`/`Infinity` and the exponential display notation for
very large/small magnitudes are outside the model; no claim depends on them).
Fallible JS operations (`JSON.parse`, method calls on wrongly-typed values)
are modelled with `Option`/`Except`.  Records (`Record<K,V>` objects) are
modelled as association lists in insertion order; JavaScript additionally
re-orders integer-like keys ascending on enumeration, which affects only the
emission order of diagnostics, never their content or multiplicity.
-/

namespace SheetSeer

/-- JS whitespace (the WhiteSpace/LineTerminator characters relevant here):
space, tab, LF, VT, FF, CR, NBSP.  Used by `String.prototype.trim`,
`parseInt`/`parseFloat` and the `\s` regex class. -/
def isJsWs (c : Char) : Bool :=
  c = ' ' || c = '\t' || c = '\n' || c = Char.ofNat 11 || c = Char.ofNat 12 ||
  c = '\r' || c = Char.ofNat 160

/-- `String.prototype.trim`. -/
def jsTrim (s : String) : String :=
  ⟨((s.data.dropWhile isJsWs).reverse.dropWhile isJsWs).reverse⟩

/-- An untyped JS row-cell value (CSV `dynamicTyping` produces strings,
numbers, booleans or null; absent columns are `undefined`). -/
inductive JSVal where
  | undef
  | null
  | bool (b : Bool)
  | num (n : Int)
  | str (s : String)
deriving DecidableEq

/-- JS truthiness of a cell value. -/
def truthy : JSVal → Bool
  | .undef => false
  | .null => false
  | .bool b => b
  | .num n => n != 0
  | .str s => s != ""

/-- Base-10 digits of `n`, least significant first (structural fuel recursion;
`fuel ≥ n` always suffices). -/
def natDigitsRev : Nat → Nat → List Nat
  | 0, _ => []
  | fuel + 1, n => if n = 0 then [] else n % 10 :: natDigitsRev fuel (n / 10)

/-- Decimal rendering of a natural number. -/
def natToString (n : Nat) : String :=
  if n = 0 then "0" else ⟨((natDigitsRev n n).map Nat.digitChar).reverse⟩

/-- `String(n)` for an integer-valued JS number. -/
def intToString (i : Int) : String :=
  if i < 0 then "-" ++ natToString i.natAbs else natToString i.toNat

/-- `String(v)` (ToString coercion) of a cell value. -/
def jsToString : JSVal → String
  | .undef => "undefined"
  | .null => "null"
  | .bool true => "true"
  | .bool false => "false"
  | .num n => intToString n
  | .str s => s

def digitVal? (c : Char) : Option Nat :=
  if '0' ≤ c ∧ c ≤ '9' then some (c.toNat - 48) else none

def hexVal? (c : Char) : Option Nat :=
  if '0' ≤ c ∧ c ≤ '9' then some (c.toNat - 48)
  else if 'a' ≤ c ∧ c ≤ 'f' then some (c.toNat - 97 + 10)
  else if 'A' ≤ c ∧ c ≤ 'F' then some (c.toNat - 65 + 10)
  else none

/-- Longest prefix of digits (relative to a digit classifier), with the rest. -/
def takeDigits (f : Char → Option Nat) : List Char → List Nat × List Char
  | [] => ([], [])
  | c :: cs =>
    match f c with
    | some d => let r := takeDigits f cs; (d :: r.1, r.2)
    | none => ([], c :: cs)

def digitsToNat (base : Nat) (ds : List Nat) : Nat :=
  ds.foldl (fun a d => a * base + d) 0

/-- Optional leading sign; returns the sign as an integer and the rest. -/
def takeSign : List Char → Int × List Char
  | '-' :: t => (-1, t)
  | '+' :: t => (1, t)
  | t => (1, t)

/-- `parseInt(s)` (radix unspecified): skip whitespace, optional sign,
`0x`-prefixed hex or a decimal-digit prefix; `none` models `NaN`. -/
def parseIntJS (s : String) : Option Int :=
  let cs := s.data.dropWhile isJsWs
  let sg := takeSign cs
  match sg.2 with
  | '0' :: x :: t =>
    if x = 'x' ∨ x = 'X' then
      let r := takeDigits hexVal? t
      if r.1 = [] then none else some (sg.1 * digitsToNat 16 r.1)
    else
      let r := takeDigits digitVal? ('0' :: x :: t)
      some (sg.1 * digitsToNat 10 r.1)
  | rest =>
    let r := takeDigits digitVal? rest
    if r.1 = [] then none else some (sg.1 * digitsToNat 10 r.1)

/-- The exact rational `sign * digits * 10 ^ e`, built with integer
arithmetic only (the `Rat` field operations are `@[irreducible]` and would
block kernel evaluation). -/
def qOfDigits (sign : Int) (ds : List Nat) (e : Int) : ℚ :=
  let m := digitsToNat 10 ds
  if 0 ≤ e then mkRat (sign * (m * 10 ^ e.toNat : Nat)) 1
  else mkRat (sign * m) (10 ^ (-e).toNat)

/-- `parseFloat(s)`: longest decimal-literal prefix, evaluated exactly in `ℚ`.
`none` models `NaN`; an `Infinity` literal is outside the model. -/
def parseFloatJS (s : String) : Option ℚ :=
  let cs := s.data.dropWhile isJsWs
  let sg := takeSign cs
  let ip := takeDigits digitVal? sg.2
  let fp : List Nat × List Char :=
    match ip.2 with
    | '.' :: t => takeDigits digitVal? t
    | _ => ([], ip.2)
  if ip.1 = [] ∧ fp.1 = [] then none
  else
    let e : Int :=
      match fp.2 with
      | c :: t =>
        if c = 'e' ∨ c = 'E' then
          let esg := takeSign t
          let eds := takeDigits digitVal? esg.2
          if eds.1 = [] then 0 else esg.1 * digitsToNat 10 eds.1
        else 0
      | [] => 0
    some (qOfDigits sg.1 (ip.1 ++ fp.1) (e - fp.1.length))

/-! ## JSON values and `JSON.parse` -/

inductive Json where
  | null
  | bool (b : Bool)
  | num (q : ℚ)
  | str (s : String)
  | arr (elems : List Json)
  | obj (members : List (String × Json))

/-- JSON whitespace skipping. -/
def jsonWs (cs : List Char) : List Char :=
  cs.dropWhile (fun c => c = ' ' || c = '\t' || c = '\n' || c = '\r')

/-- Body of a JSON string literal after the opening quote; yields the decoded
characters and the input after the closing quote. -/
def parseJsonStringBody : List Char → Option (List Char × List Char)
  | [] => none
  | '"' :: t => some ([], t)
  | '\\' :: e :: t =>
    if e = 'u' then
      match t with
      | h1 :: h2 :: h3 :: h4 :: t' =>
        match hexVal? h1, hexVal? h2, hexVal? h3, hexVal? h4 with
        | some a, some b, some c, some d =>
          (parseJsonStringBody t').map fun r =>
            (Char.ofNat (((a * 16 + b) * 16 + c) * 16 + d) :: r.1, r.2)
        | _, _, _, _ => none
      | _ => none
    else
      match
        (if e = '"' then some '"' else if e = '\\' then some '\\'
         else if e = '/' then some '/' else if e = 'b' then some (Char.ofNat 8)
         else if e = 'f' then some (Char.ofNat 12) else if e = 'n' then some '\n'
         else if e = 'r' then some '\r' else if e = 't' then some '\t' else none) with
      | some c => (parseJsonStringBody t).map fun r => (c :: r.1, r.2)
      | none => none
  | c :: t =>
    if c.toNat < 32 then none
    else (parseJsonStringBody t).map fun r => (c :: r.1, r.2)

/-- A JSON number literal: `-? (0 | [1-9][0-9]*) (\.[0-9]+)? ([eE][+-]?[0-9]+)?`,
evaluated exactly. -/
def parseJsonNumber (cs : List Char) : Option (ℚ × List Char) :=
  let sg : Int × List Char := match cs with | '-' :: t => (-1, t) | t => (1, t)
  let ipOpt : Option (List Nat × List Char) :=
    match sg.2 with
    | '0' :: t => some ([0], t)
    | c :: t =>
      match digitVal? c with
      | some d => if d = 0 then none else some (let r := takeDigits digitVal? t; (d :: r.1, r.2))
      | none => none
    | [] => none
  match ipOpt with
  | none => none
  | some (ip, r1) =>
    let fpOpt : Option (List Nat × List Char) :=
      match r1 with
      | '.' :: t =>
        let r := takeDigits digitVal? t
        if r.1 = [] then none else some r
      | _ => some ([], r1)
    match fpOpt with
    | none => none
    | some (fp, r2) =>
      let exOpt : Option (Int × List Char) :=
        match r2 with
        | c :: t =>
          if c = 'e' ∨ c = 'E' then
            let esg := takeSign t
            let eds := takeDigits digitVal? esg.2
            if eds.1 = [] then none else some (esg.1 * digitsToNat 10 eds.1, eds.2)
          else some (0, r2)
        | [] => some (0, [])
      match exOpt with
      | none => none
      | some (ex, r3) =>
        some (qOfDigits sg.1 (ip ++ fp) (ex - fp.length), r3)

/-- Check for an expected literal keyword. -/
def expectChars : List Char → List Char → Option (List Char)
  | [], rest => some rest
  | e :: es, c :: cs => if c = e then expectChars es cs else none
  | _ :: _, [] => none

mutual

/-- One JSON value (fuel-indexed recursion; fuel `2·|input|+2` always suffices). -/
def parseJsonValue : Nat → List Char → Option (Json × List Char)
  | 0, _ => none
  | fuel + 1, cs =>
    match cs with
    | [] => none
    | 'n' :: t => (expectChars ['u', 'l', 'l'] t).map fun r => (Json.null, r)
    | 't' :: t => (expectChars ['r', 'u', 'e'] t).map fun r => (Json.bool true, r)
    | 'f' :: t => (expectChars ['a', 'l', 's', 'e'] t).map fun r => (Json.bool false, r)
    | '"' :: t => (parseJsonStringBody t).map fun r => (Json.str ⟨r.1⟩, r.2)
    | '[' :: t =>
      match jsonWs t with
      | ']' :: r => some (Json.arr [], r)
      | cs1 => (parseJsonElems fuel cs1).map fun r => (Json.arr r.1, r.2)
    | '{' :: t =>
      match jsonWs t with
      | '}' :: r => some (Json.obj [], r)
      | cs1 => (parseJsonMembers fuel cs1).map fun r => (Json.obj r.1, r.2)
    | c :: t => (parseJsonNumber (c :: t)).map fun r => (Json.num r.1, r.2)

/-- Comma-separated JSON array elements up to the closing bracket. -/
def parseJsonElems : Nat → List Char → Option (List Json × List Char)
  | 0, _ => none
  | fuel + 1, cs =>
    match parseJsonValue fuel cs with
    | none => none
    | some (v, r) =>
      match jsonWs r with
      | ',' :: r2 =>
        (parseJsonElems fuel (jsonWs r2)).map fun t => (v :: t.1, t.2)
      | ']' :: r2 => some ([v], r2)
      | _ => none

/-- Comma-separated JSON object members up to the closing brace. -/
def parseJsonMembers : Nat → List Char → Option (List (String × Json) × List Char)
  | 0, _ => none
  | fuel + 1, cs =>
    match cs with
    | '"' :: t =>
      match parseJsonStringBody t with
      | none => none
      | some (k, r) =>
        match jsonWs r with
        | ':' :: r2 =>
          match parseJsonValue fuel (jsonWs r2) with
          | none => none
          | some (v, r3) =>
            match jsonWs r3 with
            | ',' :: r4 =>
              (parseJsonMembers fuel (jsonWs r4)).map fun t => ((⟨k⟩, v) :: t.1, t.2)
            | '}' :: r4 => some ([(⟨k⟩, v)], r4)
            | _ => none
        | _ => none
    | _ => none

end

/-- `JSON.parse(s)`; `none` models the thrown `SyntaxError`. -/
def jsonParse (s : String) : Option Json :=
  match parseJsonValue (2 * s.length + 2) (jsonWs s.data) with
  | some (v, rest) => if jsonWs rest = [] then some v else none
  | none => none

/-- `typeof v === "number"`. -/
def Json.isNum : Json → Bool
  | .num _ => true
  | _ => false

/-- `Array.isArray(v) && v.every(x => typeof x === "number")`. -/
def isNumArray : Json → Bool
  | .arr xs => xs.all Json.isNum
  | _ => false

/-- Strict equality (`===` / SameValueZero, as used by `Array.includes`) between
two parsed JSON values.  Arrays/objects compare by reference in JS; the values
compared in this code base always come from distinct `JSON.parse` calls, so
such comparisons are always false. -/
def jsStrictEqPrim : Json → Json → Bool
  | .null, .null => true
  | .bool a, .bool b => a == b
  | .num a, .num b => a == b
  | .str a, .str b => a == b
  | _, _ => false

/-- `String(q)` for a JS number whose value has a terminating decimal expansion
(every number produced by the JSON/float parsers does): minimal-length decimal
rendering, which is what JS prints for such values in the non-exponential
range.  Other rationals cannot arise from parsing; they get a fraction
rendering as a total-function fallback. -/
def qToString (q : ℚ) : String :=
  if q = 0 then "0"
  else
    let sgn := if q < 0 then "-" else ""
    let n := q.num.natAbs
    let d := q.den
    match (List.range (d + 1)).find? (fun k => d ∣ 10 ^ k) with
    | some k =>
      let m := n * 10 ^ k / d
      if k = 0 then sgn ++ natToString m
      else
        let ds := natToString m
        let padded := String.mk (List.replicate (k + 1 - ds.length) '0') ++ ds
        sgn ++ padded.dropRight k ++ "." ++ padded.takeRight k
    | none => sgn ++ natToString n ++ "/" ++ natToString d

/-- `String(v)` of a parsed JSON value used as a property key
(`rec[v]`).  Arrays/objects as keys never occur under the hypotheses of the
theorems below; they get a placeholder rendering. -/
def jsonKey : Json → String
  | .num q => qToString q
  | .str s => s
  | .bool true => "true"
  | .bool false => "false"
  | .null => "null"
  | .arr _ => "<object>"
  | .obj _ => "<object>"

/-- The regex `^(\d+)\s*-\s*(\d+)$` of the range shorthand: two runs of
decimal digits around a hyphen with optional whitespace next to the hyphen
only.  Returns the two captured numbers (`parseInt` of a digit run). -/
def rangeMatch (s : String) : Option (Nat × Nat) :=
  let r1 := takeDigits digitVal? s.data
  if r1.1 = [] then none
  else
    match r1.2.dropWhile isJsWs with
    | '-' :: r3 =>
      let r4 := takeDigits digitVal? (r3.dropWhile isJsWs)
      if r4.1 = [] then none
      else if r4.2 = [] then some (digitsToNat 10 r1.1, digitsToNat 10 r4.1)
      else none
    | _ => none

/-- The loop `for (let i = start; i <= end; i++) slots.push(i)`. -/
def rangeList (a b : Nat) : List Int :=
  (List.range (b + 1 - a)).map (fun i => ((a + i : Nat) : Int))

/-- `JSON.stringify` of an array of integer-valued numbers. -/
def stringifyIntList (ns : List Int) : String :=
  "[" ++ String.intercalate "," (ns.map intToString) ++ "]"

/-- `parsePhaseString` (`src/utils/dataProcessing.ts`, lines 1044-1076). -/
def parsePhaseString (phaseStr : String) : List ℚ :=
  if phaseStr = "" then []
  else
    match jsonParse phaseStr with
    | some (.arr elems) =>
      elems.filterMap fun j => match j with | .num q => some q | _ => none
    | some _ => []
    | none =>
      match rangeMatch phaseStr with
      | some (a, b) =>
        if a ≤ b then (rangeList a b).map (fun i => (Int.cast i : ℚ))
        else
          match parseIntJS phaseStr with
          | some n => [(n : ℚ)]
          | none => []
      | none =>
        match parseIntJS phaseStr with
        | some n => [(n : ℚ)]
        | none => []

/-! ## Records and diagnostics -/

inductive Severity where
  | error
  | warning
deriving DecidableEq

structure ValidationError where
  type : String
  message : String
  entity : String
  field : Option String := none
  severity : Severity
  rowIndex : Option Nat := none
deriving DecidableEq

structure Client where
  ClientID : String
  ClientName : String
  PriorityLevel : Int
  RequestedTaskIDs : String
  GroupTag : String
  AttributesJSON : JSVal
deriving DecidableEq

/-- `QualificationLevel` is not required: when its parse fails the record is
still pushed with the field left `undefined`, hence `Option`. -/
structure Worker where
  WorkerID : String
  WorkerName : String
  Skills : String
  AvailableSlots : String
  MaxLoadPerPhase : Int
  WorkerGroup : String
  QualificationLevel : Option Int
deriving DecidableEq

/-- `MaxConcurrent` is not required: a failed parse leaves it `undefined`. -/
structure Task where
  TaskID : String
  TaskName : String
  Category : String
  Duration : ℚ
  RequiredSkills : String
  PreferredPhases : String
  MaxConcurrent : Option Int
deriving DecidableEq

/-- One untyped input row for `validateClients` (absent column = `undefined`). -/
structure ClientRow where
  ClientID : JSVal := .undef
  ClientName : JSVal := .undef
  PriorityLevel : JSVal := .undef
  RequestedTaskIDs : JSVal := .undef
  GroupTag : JSVal := .undef
  AttributesJSON : JSVal := .undef
deriving DecidableEq

structure WorkerRow where
  WorkerID : JSVal := .undef
  WorkerName : JSVal := .undef
  Skills : JSVal := .undef
  AvailableSlots : JSVal := .undef
  MaxLoadPerPhase : JSVal := .undef
  WorkerGroup : JSVal := .undef
  QualificationLevel : JSVal := .undef
deriving DecidableEq

structure TaskRow where
  TaskID : JSVal := .undef
  TaskName : JSVal := .undef
  Category : JSVal := .undef
  Duration : JSVal := .undef
  RequiredSkills : JSVal := .undef
  PreferredPhases : JSVal := .undef
  MaxConcurrent : JSVal := .undef
deriving DecidableEq

/-! ## Row-level validators -/

/-- The `Partial<Client>` accumulated during one loop iteration. -/
structure PartialClient where
  ClientID : Option String
  ClientName : Option String
  PriorityLevel : Option Int
  RequestedTaskIDs : String
  GroupTag : String
  AttributesJSON : JSVal
deriving DecidableEq

/-- Body of the `data.forEach` loop of `validateClients` (lines 182-259):
field checks in source order, errors in push order. -/
def processClientRow (index : Nat) (row : ClientRow) :
    PartialClient × List ValidationError :=
  let cid : Option String × List ValidationError :=
    if truthy row.ClientID then (some (jsTrim (jsToString row.ClientID)), [])
    else (none, [⟨"missing_required", "ClientID is required", "client",
                  some "ClientID", .error, some index⟩])
  let cname : Option String × List ValidationError :=
    if truthy row.ClientName then (some (jsTrim (jsToString row.ClientName)), [])
    else (none, [⟨"missing_required", "ClientName is required", "client",
                  some "ClientName", .error, some index⟩])
  let prio : Option Int × List ValidationError :=
    match parseIntJS (jsToString row.PriorityLevel) with
    | none => (none, [⟨"out_of_range", "PriorityLevel must be between 1 and 5",
                       "client", some "PriorityLevel", .error, some index⟩])
    | some p =>
      if p < 1 ∨ 5 < p then
        (none, [⟨"out_of_range", "PriorityLevel must be between 1 and 5",
                 "client", some "PriorityLevel", .error, some index⟩])
      else (some p, [])
  let rtids := if truthy row.RequestedTaskIDs then jsTrim (jsToString row.RequestedTaskIDs) else ""
  let gtag := if truthy row.GroupTag then jsTrim (jsToString row.GroupTag) else ""
  let attrs : JSVal × List ValidationError :=
    if truthy row.AttributesJSON then
      match jsonParse (jsToString row.AttributesJSON) with
      | some _ => (row.AttributesJSON, [])
      | none => (row.AttributesJSON,
                 [⟨"invalid_json", "AttributesJSON contains invalid JSON", "client",
                   some "AttributesJSON", .error, some index⟩])
    else (.str "", [])
  (⟨cid.1, cname.1, prio.1, rtids, gtag, attrs.1⟩,
   cid.2 ++ cname.2 ++ prio.2 ++ attrs.2)

/-- `if (client.ClientID && client.ClientName && client.PriorityLevel)` —
JS truthiness of the three required fields. -/
def clientOfPartial (p : PartialClient) : Option Client :=
  match p.ClientID, p.ClientName, p.PriorityLevel with
  | some id, some nm, some pr =>
    if id ≠ "" ∧ nm ≠ "" ∧ pr ≠ 0 then
      some ⟨id, nm, pr, p.RequestedTaskIDs, p.GroupTag, p.AttributesJSON⟩
    else none
  | _, _, _ => none

/-- `Array.prototype.filter` with the element index exposed to the callback. -/
def filterIdx (f : α → Nat → Bool) : List α → Nat → List α
  | [], _ => []
  | x :: xs, i => if f x i then x :: filterIdx f xs (i + 1) else filterIdx f xs (i + 1)

/-- `ids.filter((id, index) => ids.indexOf(id) !== index)` — one element per
occurrence that is not the first occurrence of its value. -/
def dupOccurrences (ids : List String) : List String :=
  filterIdx (fun id i => ids.indexOf id != i) ids 0

def dupClientError (id : String) : ValidationError :=
  ⟨"duplicate_id", "Duplicate ClientID: " ++ id, "client", some "ClientID", .error, none⟩

/-- `validateClients` (lines 175-277). -/
def validateClients (data : List ClientRow) : List Client × List ValidationError :=
  let rowResults := data.mapIdx processClientRow
  let clients := rowResults.filterMap fun r => clientOfPartial r.1
  let rowErrors := rowResults.flatMap (·.2)
  let dupErrors := (dupOccurrences (clients.map (·.ClientID))).map dupClientError
  (clients, rowErrors ++ dupErrors)

structure PartialWorker where
  WorkerID : Option String
  WorkerName : Option String
  Skills : String
  AvailableSlots : String
  MaxLoadPerPhase : Option Int
  WorkerGroup : String
  QualificationLevel : Option Int
deriving DecidableEq

/-- The `AvailableSlots` block of the worker loop (lines 320-374): try JSON;
if it is not an array of numbers flag it; if `JSON.parse` throws, try the
range shorthand and rewrite to the canonical list encoding when
`start <= end`; otherwise flag and keep the trimmed original. -/
def validateSlotField (index : Nat) (s : String) (entity fieldName : String) :
    String × List ValidationError :=
  if s ≠ "" then
    match jsonParse s with
    | some v =>
      if isNumArray v then (s, [])
      else (s, [⟨"invalid_format", fieldName ++ " must be an array of numbers",
                 entity, some fieldName, .error, some index⟩])
    | none =>
      match rangeMatch s with
      | some (a, b) =>
        if a ≤ b then (stringifyIntList (rangeList a b), [])
        else (s, [⟨"invalid_format", fieldName ++ " range must be valid (e.g., '1-3')",
                   entity, some fieldName, .error, some index⟩])
      | none =>
        (s, [⟨"invalid_format",
              fieldName ++ " must be valid JSON array or range (e.g., '1-3')",
              entity, some fieldName, .error, some index⟩])
  else (s, [])

/-- Body of the `data.forEach` loop of `validateWorkers` (lines 286-422). -/
def processWorkerRow (index : Nat) (row : WorkerRow) :
    PartialWorker × List ValidationError :=
  let wid : Option String × List ValidationError :=
    if truthy row.WorkerID then (some (jsTrim (jsToString row.WorkerID)), [])
    else (none, [⟨"missing_required", "WorkerID is required", "worker",
                  some "WorkerID", .error, some index⟩])
  let wname : Option String × List ValidationError :=
    if truthy row.WorkerName then (some (jsTrim (jsToString row.WorkerName)), [])
    else (none, [⟨"missing_required", "WorkerName is required", "worker",
                  some "WorkerName", .error, some index⟩])
  let skills := if truthy row.Skills then jsTrim (jsToString row.Skills) else ""
  let slots0 := if truthy row.AvailableSlots then jsTrim (jsToString row.AvailableSlots) else ""
  let slots := validateSlotField index slots0 "worker" "AvailableSlots"
  let maxLoad : Option Int × List ValidationError :=
    match parseIntJS (jsToString row.MaxLoadPerPhase) with
    | none => (none, [⟨"invalid_format", "MaxLoadPerPhase must be a number", "worker",
                       some "MaxLoadPerPhase", .error, some index⟩])
    | some m =>
      if m < 1 then
        (none, [⟨"out_of_range", "MaxLoadPerPhase must be at least 1", "worker",
                 some "MaxLoadPerPhase", .error, some index⟩])
      else (some m, [])
  let wgroup := if truthy row.WorkerGroup then jsTrim (jsToString row.WorkerGroup) else ""
  let qual : Option Int × List ValidationError :=
    match parseIntJS (jsToString row.QualificationLevel) with
    | none => (none, [⟨"invalid_format", "QualificationLevel must be a number", "worker",
                       some "QualificationLevel", .error, some index⟩])
    | some q => (some q, [])
  (⟨wid.1, wname.1, skills, slots.1, maxLoad.1, wgroup, qual.1⟩,
   wid.2 ++ wname.2 ++ slots.2 ++ maxLoad.2 ++ qual.2)

/-- `if (worker.WorkerID && worker.WorkerName && worker.MaxLoadPerPhase)`. -/
def workerOfPartial (p : PartialWorker) : Option Worker :=
  match p.WorkerID, p.WorkerName, p.MaxLoadPerPhase with
  | some id, some nm, some ml =>
    if id ≠ "" ∧ nm ≠ "" ∧ ml ≠ 0 then
      some ⟨id, nm, p.Skills, p.AvailableSlots, ml, p.WorkerGroup, p.QualificationLevel⟩
    else none
  | _, _, _ => none

def dupWorkerError (id : String) : ValidationError :=
  ⟨"duplicate_id", "Duplicate WorkerID: " ++ id, "worker", some "WorkerID", .error, none⟩

/-- `validateWorkers` (lines 279-440). -/
def validateWorkers (data : List WorkerRow) : List Worker × List ValidationError :=
  let rowResults := data.mapIdx processWorkerRow
  let workers := rowResults.filterMap fun r => workerOfPartial r.1
  let rowErrors := rowResults.flatMap (·.2)
  let dupErrors := (dupOccurrences (workers.map (·.WorkerID))).map dupWorkerError
  (workers, rowErrors ++ dupErrors)

structure PartialTask where
  TaskID : Option String
  TaskName : Option String
  Category : String
  Duration : Option ℚ
  RequiredSkills : String
  PreferredPhases : String
  MaxConcurrent : Option Int
deriving DecidableEq

/-- Body of the `data.forEach` loop of `validateTasks` (lines 449-596). -/
def processTaskRow (index : Nat) (row : TaskRow) :
    PartialTask × List ValidationError :=
  let tid : Option String × List ValidationError :=
    if truthy row.TaskID then (some (jsTrim (jsToString row.TaskID)), [])
    else (none, [⟨"missing_required", "TaskID is required", "task",
                  some "TaskID", .error, some index⟩])
  let tname : Option String × List ValidationError :=
    if truthy row.TaskName then (some (jsTrim (jsToString row.TaskName)), [])
    else (none, [⟨"missing_required", "TaskName is required", "task",
                  some "TaskName", .error, some index⟩])
  let cat := if truthy row.Category then jsTrim (jsToString row.Category) else ""
  let dur : Option ℚ × List ValidationError :=
    match parseFloatJS (jsToString row.Duration) with
    | none => (none, [⟨"invalid_format", "Duration must be a number", "task",
                       some "Duration", .error, some index⟩])
    | some d =>
      if d < 1 then
        (none, [⟨"out_of_range", "Duration must be at least 1", "task",
                 some "Duration", .error, some index⟩])
      else (some d, [])
  let rskills := if truthy row.RequiredSkills then jsTrim (jsToString row.RequiredSkills) else ""
  let phases0 := if truthy row.PreferredPhases then jsTrim (jsToString row.PreferredPhases) else ""
  let phases := validateSlotField index phases0 "task" "PreferredPhases"
  let maxConc : Option Int × List ValidationError :=
    match parseIntJS (jsToString row.MaxConcurrent) with
    | none => (none, [⟨"invalid_format", "MaxConcurrent must be a number", "task",
                       some "MaxConcurrent", .error, some index⟩])
    | some m =>
      if m < 1 then
        (none, [⟨"out_of_range", "MaxConcurrent must be at least 1", "task",
                 some "MaxConcurrent", .error, some index⟩])
      else (some m, [])
  (⟨tid.1, tname.1, cat, dur.1, rskills, phases.1, maxConc.1⟩,
   tid.2 ++ tname.2 ++ dur.2 ++ phases.2 ++ maxConc.2)

/-- `if (task.TaskID && task.TaskName && task.Duration)`. -/
def taskOfPartial (p : PartialTask) : Option Task :=
  match p.TaskID, p.TaskName, p.Duration with
  | some id, some nm, some d =>
    if id ≠ "" ∧ nm ≠ "" ∧ d ≠ 0 then
      some ⟨id, nm, p.Category, d, p.RequiredSkills, p.PreferredPhases, p.MaxConcurrent⟩
    else none
  | _, _, _ => none

def dupTaskError (id : String) : ValidationError :=
  ⟨"duplicate_id", "Duplicate TaskID: " ++ id, "task", some "TaskID", .error, none⟩

/-- `validateTasks` (lines 442-614). -/
def validateTasks (data : List TaskRow) : List Task × List ValidationError :=
  let rowResults := data.mapIdx processTaskRow
  let tasks := rowResults.filterMap fun r => taskOfPartial r.1
  let rowErrors := rowResults.flatMap (·.2)
  let dupErrors := (dupOccurrences (tasks.map (·.TaskID))).map dupTaskError
  (tasks, rowErrors ++ dupErrors)

/-! ## Cross-reference validation -/

/-- `s.split(",")` (structural recursion; `String.splitOn` does not reduce in
the kernel).  `""` splits to `[""]`, matching JS. -/
def splitComma (s : String) : List String :=
  go s.data []
where
  go : List Char → List Char → List String
    | [], acc => [⟨acc.reverse⟩]
    | c :: cs, acc => if c = ',' then ⟨acc.reverse⟩ :: go cs [] else go cs (c :: acc)

/-- `s.split(",").map(x => x.trim())`. -/
def splitTrim (s : String) : List String := (splitComma s).map jsTrim

/-- Does a worker hold every required skill of the task (lines 678-686)? -/
def qualifiedFor (t : Task) (w : Worker) : Bool :=
  let wset := splitTrim w.Skills
  (splitTrim t.RequiredSkills).all fun sk => wset.contains sk

/-- `worker.AvailableSlots ? JSON.parse(worker.AvailableSlots) : []` followed
by `.includes` calls: a thrown `SyntaxError`, or a parse result that is not an
array (so `.includes` raises a `TypeError` on the first nonempty-`some`
callback), aborts the enclosing `try` block. -/
def workerSlotsE (w : Worker) : Except Unit (List Json) :=
  if w.AvailableSlots ≠ "" then
    match jsonParse w.AvailableSlots with
    | some (.arr ss) => .ok ss
    | some _ => .error ()
    | none => .error ()
  else .ok []

/-- `qualifiedWorkers.some(worker => ... preferredPhases.some(phase =>
workerSlots.includes(phase)))` — short-circuiting, with exceptions surfacing
from the callback. -/
def someAvailable (ps : List Json) : List Worker → Except Unit Bool
  | [] => .ok false
  | w :: ws =>
    match workerSlotsE w with
    | .error _ => .error ()
    | .ok ss =>
      if ps.any (fun p => ss.any (jsStrictEqPrim p)) then .ok true
      else someAvailable ps ws

def phaseAvailWarning (t : Task) : ValidationError :=
  ⟨"phase_availability",
   "Task " ++ t.TaskID ++ " has preferred phases but no qualified workers available in those phases",
   "task", some "PreferredPhases", .warning, none⟩

/-- The phase-availability block of `validateCrossReferences` for one task
(lines 671-711); the surrounding `try`/`catch` swallows any exception, so an
aborted check emits nothing. -/
def phaseAvailCheck (workers : List Worker) (t : Task) : List ValidationError :=
  let warn : List ValidationError := [phaseAvailWarning t]
  if t.PreferredPhases = "" then []  -- preferredPhases = [], length 0
  else
    match jsonParse t.PreferredPhases with
    | none => []                      -- JSON.parse threw, caught
    | some (.arr ps) =>
      if ps.length > 0 then
        match someAvailable ps (workers.filter (qualifiedFor t)) with
        | .ok true => []
        | .ok false => warn
        | .error _ => []              -- exception caught
      else []
    | some (.str s) =>
      -- a JSON string has `.length`; `.some` on it throws unless no qualified
      -- worker's callback ever runs
      if s.length > 0 then
        if (workers.filter (qualifiedFor t)).isEmpty then warn else []
      else []
    | some _ => []                    -- no `.length > 0` or `.forEach` TypeError caught

def unknownTaskError (c : Client) (tid : String) : ValidationError :=
  ⟨"unknown_reference", "Client " ++ c.ClientID ++ " requests unknown task: " ++ tid,
   "client", some "RequestedTaskIDs", .error, none⟩

/-- Block 1 of `validateCrossReferences` (lines 630-648): unknown
requested-task references, one error per unmatched trimmed entry. -/
def unknownRefBlock (clients : List Client) (tasks : List Task) : List ValidationError :=
  let taskIds := tasks.map (·.TaskID)
  clients.flatMap fun c =>
    if c.RequestedTaskIDs ≠ "" then
      (splitTrim c.RequestedTaskIDs).flatMap fun tid =>
        if taskIds.contains tid then [] else [unknownTaskError c tid]
    else []

/-- Block 2 (lines 650-668): skill coverage. -/
def skillCovBlock (workers : List Worker) (tasks : List Task) : List ValidationError :=
  let workerSkills := workers.flatMap fun w => splitTrim w.Skills
  tasks.flatMap fun t =>
    if t.RequiredSkills ≠ "" then
      (splitTrim t.RequiredSkills).flatMap fun sk =>
        if workerSkills.contains sk then []
        else [⟨"skill_coverage",
               "Task " ++ t.TaskID ++ " requires skill \"" ++ sk ++ "\" but no worker has it",
               "task", some "RequiredSkills", .error, none⟩]
    else []

/-- Block 4 (lines 713-724): client group tags without a matching worker group. -/
def groupRefBlock (clients : List Client) (workers : List Worker) : List ValidationError :=
  let workerGroups := workers.map (·.WorkerGroup)
  clients.flatMap fun c =>
    if c.GroupTag ≠ "" ∧ ¬ workerGroups.contains c.GroupTag then
      [⟨"group_reference",
        "Client " ++ c.ClientID ++ " has GroupTag '" ++ c.GroupTag ++ "' but no workers belong to this group",
        "client", some "GroupTag", .warning, none⟩]
    else []

/-- `validateCrossReferences` (lines 617-727), blocks in source order.
(The source also computes a `clientGroups` set that is never used.) -/
def validateCrossReferences (clients : List Client) (workers : List Worker)
    (tasks : List Task) : List ValidationError :=
  unknownRefBlock clients tasks ++ skillCovBlock workers tasks ++
    tasks.flatMap (fun t => phaseAvailCheck workers t) ++ groupRefBlock clients workers

/-! ## Phase-slot saturation -/

/-- A JS object used as a dictionary: an association list in insertion order.
(On enumeration JS additionally lists integer-like keys first in ascending
order; no claim depends on diagnostic order, so insertion order is kept.) -/
abbrev Alist (β : Type) := List (String × β)

/-- `rec[k]` (`none` = `undefined`). -/
def alook (r : Alist β) (k : String) : Option β :=
  (r.find? fun p => p.1 == k).map (·.2)

/-- `rec[k] = v`: replace the value in place if the key exists, else append. -/
def upsert (r : Alist β) (k : String) (v : β) : Alist β :=
  if (r.find? fun p => p.1 == k).isSome then
    r.map fun p => if p.1 == k then (k, v) else p
  else r ++ [(k, v)]

/-- A JS `Record<number, number>`. -/
abbrev NumRec := Alist ℚ

def rlook (r : NumRec) (k : String) : Option ℚ := alook r k

/-- `rec[k] = (rec[k] || 0) + x` (`0 || 0` and `undefined || 0` are both `0`). -/
def radd (r : NumRec) (k : String) (x : ℚ) : NumRec :=
  upsert r k ((alook r k).getD 0 + x)

/-- Parsed slots as consumed by `checkPhaseSlotSaturation`'s worker loop: a
parse failure or non-array parse (`forEach` TypeError) is caught and the
worker skipped, contributing nothing. -/
def workerParsedSlots (w : Worker) : List Json :=
  if w.AvailableSlots ≠ "" then
    match jsonParse w.AvailableSlots with
    | some (.arr ss) => ss
    | _ => []
  else []

/-- `phaseWorkerSlots`: total `MaxLoadPerPhase` summed into every phase of each
worker's parsed available slots (lines 857-870). -/
def phaseWorkerSlots (workers : List Worker) : NumRec :=
  workers.foldl
    (fun rec w =>
      (workerParsedSlots w).foldl
        (fun rec s => radd rec (jsonKey s) (w.MaxLoadPerPhase : ℚ)) rec)
    []

/-- The property key of `phaseSlotUsage[parseInt(phase)]`: `parseInt` of the
capacity key, `NaN` rendering "NaN". -/
def keyViaParseInt (k : String) : String :=
  match parseIntJS k with
  | some n => intToString n
  | none => "NaN"

/-- The task loop of `checkPhaseSlotSaturation` (lines 873-892): an empty
parsed phase list (also an empty string, or a `""` JSON string, whose
`.length === 0`) spreads the duration over every existing capacity key; a
nonempty parsed array adds it to each listed phase; a parse failure or any
other parse result (`forEach`/`length` TypeError) is caught and skipped. -/
def taskPhaseContrib (capKeys : List String) (rec : NumRec) (t : Task) : NumRec :=
  let spread := capKeys.foldl (fun rec k => radd rec (keyViaParseInt k) t.Duration) rec
  if t.PreferredPhases = "" then spread
  else
    match jsonParse t.PreferredPhases with
    | none => rec
    | some (.arr []) => spread
    | some (.arr ps) => ps.foldl (fun rec p => radd rec (jsonKey p) t.Duration) rec
    | some (.str "") => spread
    | some _ => rec

/-- `checkPhaseSlotSaturation` (lines 849-909). -/
def checkPhaseSlotSaturation (tasks : List Task) (workers : List Worker) :
    List ValidationError :=
  let pws := phaseWorkerSlots workers
  let usage := tasks.foldl (taskPhaseContrib (pws.map (·.1))) []
  usage.flatMap fun p =>
    let phaseNumS := keyViaParseInt p.1
    let avail := (rlook pws phaseNumS).getD 0
    if p.2 > avail then
      [⟨"phase_saturation",
        "Phase " ++ phaseNumS ++ " is oversubscribed (" ++ qToString p.2 ++
        " duration units needed but only " ++ qToString avail ++ " slots available)",
        "system", none, .warning, none⟩]
    else []

/-- The per-phase capacity contributions of the worker loop, in processing
order: one `(key, MaxLoadPerPhase)` entry per parsed slot. -/
def capStream (workers : List Worker) : List (String × ℚ) :=
  workers.flatMap fun w =>
    (workerParsedSlots w).map fun s => (jsonKey s, (w.MaxLoadPerPhase : ℚ))

/-- The per-phase demand contributions of the task loop, in processing order:
one `(key, Duration)` entry per added phase. -/
def demandStream (capKeys : List String) (tasks : List Task) : List (String × ℚ) :=
  tasks.flatMap fun t =>
    if t.PreferredPhases = "" then
      capKeys.map fun k => (keyViaParseInt k, t.Duration)
    else
      match jsonParse t.PreferredPhases with
      | none => []
      | some (.arr []) => capKeys.map fun k => (keyViaParseInt k, t.Duration)
      | some (.arr ps) => ps.map fun x => (jsonKey x, t.Duration)
      | some (.str "") => capKeys.map fun k => (keyViaParseInt k, t.Duration)
      | some _ => []

/-! ## Default-rule generation and weight normalization -/

inductive RuleParams where
  | coRunP (taskIds : List String)
  | loadLimitP (workerGroup : String) (maxSlotsPerPhase : Int)
deriving DecidableEq

structure BusinessRule where
  id : String
  type : String
  name : String
  description : String
  parameters : RuleParams
deriving DecidableEq

/-- Lexicographic code-unit comparison of strings, as JS `<=` on strings
(structural; `String.ltb` does not reduce in the kernel). -/
def strLeAux : List Char → List Char → Bool
  | [], _ => true
  | _ :: _, [] => false
  | a :: as, b :: bs =>
    if a.toNat < b.toNat then true
    else if b.toNat < a.toNat then false
    else strLeAux as bs

def strLe (a b : String) : Bool := strLeAux a.data b.data

/-- `[a, b].sort().join(",")` — default sort is lexicographic string order. -/
def pairKey (a b : String) : String :=
  if strLe a b then a ++ "," ++ b else b ++ "," ++ a

/-- The nested `for i / for j = i+1` loops collecting the pair keys of one
client's requested-task list. -/
def pairKeys : List String → List String
  | [] => []
  | x :: xs => xs.map (pairKey x) ++ pairKeys xs

/-- `rec[key] = rec[key] || []; rec[key].push(v)` (an existing array, even an
empty one, is truthy and kept). -/
def pushAt (r : Alist (List String)) (k v : String) : Alist (List String) :=
  upsert r k ((alook r k).getD [] ++ [v])

/-- The pair-frequency table `clientTaskPairs` (lines 952-964). -/
def clientTaskPairs (clients : List Client) : Alist (List String) :=
  clients.foldl
    (fun rec c =>
      if c.RequestedTaskIDs ≠ "" then
        (pairKeys (splitTrim c.RequestedTaskIDs)).foldl
          (fun rec k => pushAt rec k c.ClientID) rec
      else rec)
    []

/-- `workerGroupCounts` (lines 983-987):
`rec[g] = (rec[g] || 0) + 1` summed over workers. -/
def workerGroupCounts (workers : List Worker) : Alist Nat :=
  workers.foldl
    (fun rec w => upsert rec w.WorkerGroup ((alook rec w.WorkerGroup).getD 0 + 1))
    []

/-- `generateDefaultRules` (lines 943-1006).  `Date.now()` is passed in as the
`now` parameter to keep the function deterministic. -/
def generateDefaultRules (now : Nat) (clients : List Client) (workers : List Worker)
    (_tasks : List Task) : List BusinessRule :=
  let coRules := (clientTaskPairs clients).foldl
    (fun rules p =>
      if p.2.length ≥ 3 then
        rules ++ [⟨"co-run-" ++ natToString now ++ "-" ++ natToString rules.length,
                   "coRun",
                   "Co-run " ++ String.intercalate " and " (splitComma p.1),
                   "Automatically generated because " ++ natToString p.2.length ++
                     " clients request these tasks together",
                   .coRunP (splitComma p.1)⟩]
      else rules)
    []
  (workerGroupCounts workers).foldl
    (fun rules p =>
      if p.2 > 5 then
        rules ++ [⟨"load-limit-" ++ natToString now ++ "-" ++ natToString rules.length,
                   "loadLimit",
                   "Load limit for " ++ p.1,
                   "Automatically generated because " ++ p.1 ++ " has " ++
                     natToString p.2 ++ " workers",
                   .loadLimitP p.1 (p.2 / 2)⟩]
      else rules)
    coRules

/-- A named weight mapping (`Weights`), as an association list in key order. -/
abbrev Weights := List (String × ℚ)

/-- `DEFAULT_WEIGHTS` (lines 74-79). -/
def DEFAULT_WEIGHTS : Weights :=
  [("priorityLevel", 2/5), ("taskFulfillment", 3/10), ("fairness", 1/5), ("efficiency", 1/10)]

/-- `normalizeWeights` (lines 1009-1018). -/
def normalizeWeights (weights : Weights) : Weights :=
  let total := (weights.map (·.2)).sum
  if total = 0 then DEFAULT_WEIGHTS
  else weights.map fun p => (p.1, p.2 / total)

/-! ## Specification-side definitions

Independent statements of what the spec claims, to be compared with the
translated code above. -/

/-- Spec side: the required client fields all validate, with the extra fact
(forced by the code) that the trimmed id/name are nonempty. -/
def clientRequiredOk (row : ClientRow) : Bool :=
  truthy row.ClientID && jsTrim (jsToString row.ClientID) != "" &&
  truthy row.ClientName && jsTrim (jsToString row.ClientName) != "" &&
  (match parseIntJS (jsToString row.PriorityLevel) with
   | some p => decide (1 ≤ p) && decide (p ≤ 5)
   | none => false)

/-- Spec side: the client record a fully-validated row yields. -/
def specClient (row : ClientRow) : Option Client :=
  if clientRequiredOk row then
    some ⟨jsTrim (jsToString row.ClientID), jsTrim (jsToString row.ClientName),
          (parseIntJS (jsToString row.PriorityLevel)).getD 0,
          if truthy row.RequestedTaskIDs then jsTrim (jsToString row.RequestedTaskIDs) else "",
          if truthy row.GroupTag then jsTrim (jsToString row.GroupTag) else "",
          if truthy row.AttributesJSON then row.AttributesJSON else .str ""⟩
  else none

def workerRequiredOk (row : WorkerRow) : Bool :=
  truthy row.WorkerID && jsTrim (jsToString row.WorkerID) != "" &&
  truthy row.WorkerName && jsTrim (jsToString row.WorkerName) != "" &&
  (match parseIntJS (jsToString row.MaxLoadPerPhase) with
   | some m => decide (1 ≤ m)
   | none => false)

def specWorker (row : WorkerRow) : Option Worker :=
  if workerRequiredOk row then
    some ⟨jsTrim (jsToString row.WorkerID), jsTrim (jsToString row.WorkerName),
          if truthy row.Skills then jsTrim (jsToString row.Skills) else "",
          (validateSlotField 0
            (if truthy row.AvailableSlots then jsTrim (jsToString row.AvailableSlots) else "")
            "worker" "AvailableSlots").1,
          (parseIntJS (jsToString row.MaxLoadPerPhase)).getD 0,
          if truthy row.WorkerGroup then jsTrim (jsToString row.WorkerGroup) else "",
          parseIntJS (jsToString row.QualificationLevel)⟩
  else none

def taskRequiredOk (row : TaskRow) : Bool :=
  truthy row.TaskID && jsTrim (jsToString row.TaskID) != "" &&
  truthy row.TaskName && jsTrim (jsToString row.TaskName) != "" &&
  (match parseFloatJS (jsToString row.Duration) with
   | some d => decide (1 ≤ d)
   | none => false)

def specTask (row : TaskRow) : Option Task :=
  if taskRequiredOk row then
    some ⟨jsTrim (jsToString row.TaskID), jsTrim (jsToString row.TaskName),
          if truthy row.Category then jsTrim (jsToString row.Category) else "",
          (parseFloatJS (jsToString row.Duration)).getD 0,
          if truthy row.RequiredSkills then jsTrim (jsToString row.RequiredSkills) else "",
          (validateSlotField 0
            (if truthy row.PreferredPhases then jsTrim (jsToString row.PreferredPhases) else "")
            "task" "PreferredPhases").1,
          (parseIntJS (jsToString row.MaxConcurrent)).bind
            (fun m => if m < 1 then none else some m)⟩
  else none

/-- Inverse of `splitComma`: rejoin with commas. -/
def joinComma : List String → String
  | [] => ""
  | [x] => x
  | x :: xs => x ++ "," ++ joinComma xs

/-- The co-run rule generated for pair key `key` (the `idx`-th generated rule)
backed by `cnt` requesting clients. -/
def mkCoRunRule (now idx : Nat) (key : String) (cnt : Nat) : BusinessRule :=
  ⟨"co-run-" ++ natToString now ++ "-" ++ natToString idx, "coRun",
   "Co-run " ++ String.intercalate " and " (splitComma key),
   "Automatically generated because " ++ natToString cnt ++
     " clients request these tasks together",
   .coRunP (splitComma key)⟩

/-- The pair-key/client-id entries in processing order. -/
def pairStream (clients : List Client) : List (String × String) :=
  clients.flatMap fun c =>
    if c.RequestedTaskIDs ≠ "" then
      (pairKeys (splitTrim c.RequestedTaskIDs)).map fun k => (k, c.ClientID)
    else []

/-- The load-limit rule generated for group `group` of size `cnt` as the
`idx`-th generated rule. -/
def mkLoadLimitRule (now idx : Nat) (group : String) (cnt : Nat) : BusinessRule :=
  ⟨"load-limit-" ++ natToString now ++ "-" ++ natToString idx, "loadLimit",
   "Load limit for " ++ group,
   "Automatically generated because " ++ group ++ " has " ++ natToString cnt ++ " workers",
   .loadLimitP group (cnt / 2)⟩

/-- Spec side: the worker's `AvailableSlots` is empty or parses to a JSON
array, so the availability check cannot throw on it. -/
def slotsParseOk (w : Worker) : Bool :=
  w.AvailableSlots == "" ||
    (match jsonParse w.AvailableSlots with
     | some (.arr _) => true
     | _ => false)

/-- Spec side: `x` is the JS number of the natural `p`. -/
def isNumVal (x : Json) (p : ℕ) : Bool :=
  match x with
  | .num q => q == (p : ℚ)
  | _ => false

/-- Spec side, phase saturation: total capacity of phase `p` — each worker's
max load summed once per occurrence of `p` in its parsed slot list. -/
def specCapacity (workers : List Worker) (p : ℕ) : ℚ :=
  (workers.map fun w =>
    (((workerParsedSlots w).countP fun s => isNumVal s p : ℕ) : ℚ) * (w.MaxLoadPerPhase : ℚ)).sum

/-- Spec side: some worker has phase `p` among its parsed available slots. -/
def phaseHasCapacity (workers : List Worker) (p : ℕ) : Bool :=
  workers.any fun w => (workerParsedSlots w).any fun s => isNumVal s p

/-- Spec side: one task's contribution to the demand of phase `p`: its
duration once per occurrence of `p` in its parsed preferred phases, or — when
the parsed phase list is empty — its duration in every phase some worker is
available in. -/
def taskDemandContrib (workers : List Worker) (t : Task) (p : ℕ) : ℚ :=
  if t.PreferredPhases = "" then if phaseHasCapacity workers p then t.Duration else 0
  else
    match jsonParse t.PreferredPhases with
    | none => 0
    | some (.arr []) => if phaseHasCapacity workers p then t.Duration else 0
    | some (.arr ps) => ((ps.countP fun x => isNumVal x p : ℕ) : ℚ) * t.Duration
    | some (.str "") => if phaseHasCapacity workers p then t.Duration else 0
    | some _ => 0

/-- Spec side: total demand of phase `p`. -/
def specDemand (workers : List Worker) (tasks : List Task) (p : ℕ) : ℚ :=
  (tasks.map fun t => taskDemandContrib workers t p).sum

/-- Spec side: the parsed preferred-phase entries of a task (empty when the
stored value is empty, unparsable, or not an array). -/
def taskParsedPhaseVals (t : Task) : List Json :=
  if t.PreferredPhases = "" then []
  else
    match jsonParse t.PreferredPhases with
    | some (.arr ps) => ps
    | _ => []

/-- Spec side: the task adds a demand contribution at phase `p` (its parsed
phase list mentions `p`, or the list is empty-ish and some worker is available
in `p`). -/
def taskTouches (workers : List Worker) (t : Task) (p : ℕ) : Bool :=
  if t.PreferredPhases = "" then phaseHasCapacity workers p
  else
    match jsonParse t.PreferredPhases with
    | none => false
    | some (.arr []) => phaseHasCapacity workers p
    | some (.arr ps) => ps.any fun x => isNumVal x p
    | some (.str "") => phaseHasCapacity workers p
    | some _ => false

/-- Spec side: some task contributes demand at phase `p`. -/
def phaseDemanded (workers : List Worker) (tasks : List Task) (p : ℕ) : Bool :=
  tasks.any fun t => taskTouches workers t p

/-- The saturation warning for phase `p` with demand `d` and capacity `c`. -/
def satWarning (p : ℕ) (d c : ℚ) : ValidationError :=
  ⟨"phase_saturation",
   "Phase " ++ natToString p ++ " is oversubscribed (" ++ qToString d ++
     " duration units needed but only " ++ qToString c ++ " slots available)",
   "system", none, .warning, none⟩

/-- Spec side, default rules: the multiset of pair keys contributed by all
clients (one entry per index pair `i < j` of a client's requested-task list). -/
def allPairKeys (clients : List Client) : List String :=
  clients.flatMap fun c =>
    if c.RequestedTaskIDs ≠ "" then pairKeys (splitTrim c.RequestedTaskIDs) else []

/-! ## C1: `parsePhaseString` -/

/-- C1 (counterexample): the claim says a string that is a single integer
yields the one-element list containing it, but `"5"` is valid JSON (a
non-array), so the function returns the empty list — the `parseInt` fallback
is reachable only when `JSON.parse` throws. -/
theorem parsePhaseString_single_integer_cex :
    parsePhaseString "5" = [] ∧ parsePhaseString "5" ≠ [(5 : ℚ)] := by
  constructor
  · rfl
  · decide

/-- C1 (amended): `parsePhaseString` never fails; a string JSON-parsing to an
array yields its number-typed elements; any other successful JSON parse
(including a bare integer) yields the empty list; when JSON parsing fails, a
`start-end` match (whitespace allowed around the hyphen only) with
`start <= end` yields the inclusive range, and otherwise the result is the
integer prefix parsed by `parseInt` as a one-element list, or empty if there
is none. -/
theorem rangeList_castQ (a b : ℕ) :
    ((rangeList a b).map fun i => (Int.cast i : ℚ)) =
      (List.range (b + 1 - a)).map fun i => ((a + i : ℕ) : ℚ) := by
  unfold rangeList
  rw [List.map_map]
  refine List.map_congr_left fun i _ => ?_
  simp

theorem parsePhaseString_characterization (s : String) :
    (s = "" → parsePhaseString s = [])
    ∧ (∀ xs, jsonParse s = some (.arr xs) →
        parsePhaseString s = xs.filterMap fun j =>
          match j with | .num q => some q | _ => none)
    ∧ (∀ v, jsonParse s = some v → (∀ xs, v ≠ .arr xs) → parsePhaseString s = [])
    ∧ (∀ a b, jsonParse s = none → rangeMatch s = some (a, b) → a ≤ b →
        parsePhaseString s = (List.range (b + 1 - a)).map fun i => ((a + i : ℕ) : ℚ))
    ∧ (∀ a b, jsonParse s = none → rangeMatch s = some (a, b) → b < a →
        parsePhaseString s = ((parseIntJS s).map fun n => [(n : ℚ)]).getD [])
    ∧ (jsonParse s = none → rangeMatch s = none →
        parsePhaseString s = ((parseIntJS s).map fun n => [(n : ℚ)]).getD []) := by
  have hempty : jsonParse "" = none := rfl
  refine ⟨?_, ?_, ?_, ?_, ?_, ?_⟩
  · intro h
    simp [parsePhaseString, h]
  · intro xs hj
    have hs : s ≠ "" := by
      intro h; rw [h, hempty] at hj; exact absurd hj (by simp)
    simp [parsePhaseString, hs, hj]
  · intro v hj hv
    have hs : s ≠ "" := by
      intro h; rw [h, hempty] at hj; exact absurd hj (by simp)
    cases v with
    | arr xs => exact absurd rfl (hv xs)
    | null => simp [parsePhaseString, hs, hj]
    | bool b => simp [parsePhaseString, hs, hj]
    | num q => simp [parsePhaseString, hs, hj]
    | str t => simp [parsePhaseString, hs, hj]
    | obj ms => simp [parsePhaseString, hs, hj]
  · intro a b hj hr hab
    by_cases hs : s = ""
    · rw [hs, show rangeMatch "" = none from rfl] at hr; exact absurd hr (by simp)
    · have h1 : parsePhaseString s = (rangeList a b).map fun i => (Int.cast i : ℚ) := by
        simp only [parsePhaseString, hs, if_false, hj, hr, if_pos hab]
      rw [h1, rangeList_castQ]
  · intro a b hj hr hba
    by_cases hs : s = ""
    · rw [hs, show rangeMatch "" = none from rfl] at hr; exact absurd hr (by simp)
    · have : ¬ a ≤ b := by omega
      simp only [parsePhaseString, hs, if_false, hj, hr, if_neg this]
      cases parseIntJS s <;> simp
  · intro hj hr
    by_cases hs : s = ""
    · simp [parsePhaseString, hs]
      cases h : parseIntJS "" <;> simp_all [parseIntJS, takeDigits, takeSign]
    · simp only [parsePhaseString, hs, if_false, hj, hr]
      cases parseIntJS s <;> simp

/-- C1 (witness): the range case at `"1-3"`. -/
theorem parsePhaseString_range_witness : parsePhaseString "1-3" = [(1 : ℚ), 2, 3] := by
  have h := (parsePhaseString_characterization "1-3").2.2.2.1 1 3 rfl rfl (by norm_num)
  rw [h]
  decide

/-! ## C9: `normalizeWeights` -/

/-- C9: a mapping whose values sum to a nonzero total is rescaled value-wise
by the total (keys unchanged, values dividing by the sum, results summing
to 1); a mapping summing to exactly zero yields `DEFAULT_WEIGHTS`. -/
theorem normalizeWeights_spec (w : Weights) :
    ((w.map (·.2)).sum ≠ 0 →
      normalizeWeights w = (w.map fun p => (p.1, p.2 / (w.map (·.2)).sum)) ∧
      (normalizeWeights w).map (·.1) = w.map (·.1) ∧
      ((normalizeWeights w).map (·.2)).sum = 1)
    ∧ ((w.map (·.2)).sum = 0 → normalizeWeights w = DEFAULT_WEIGHTS) := by
  constructor
  · intro h
    refine ⟨by simp [normalizeWeights, h], by simp [normalizeWeights, h], ?_⟩
    have h1 : ((normalizeWeights w).map (·.2)) =
        w.map fun p => p.2 * ((w.map (·.2)).sum)⁻¹ := by
      simp [normalizeWeights, h, div_eq_mul_inv]
    rw [h1, List.sum_map_mul_right, mul_inv_cancel₀ h]
  · intro h
    simp [normalizeWeights, h]

/-- C9 (witness): `normalize({a:2,b:2}) = {a:0.5,b:0.5}`. -/
theorem normalizeWeights_witness :
    normalizeWeights [("a", 2), ("b", 2)] = [("a", (1 : ℚ) / 2), ("b", (1 : ℚ) / 2)] := by
  have h := ((normalizeWeights_spec [("a", 2), ("b", 2)]).1 (by norm_num)).1
  rw [h]
  norm_num

/-! ## List infrastructure for the validator proofs -/

theorem filterIdx_succ (f : α → Nat → Bool) (l : List α) (n : Nat) :
    filterIdx f l (n + 1) = filterIdx (fun x i => f x (i + 1)) l n := by
  induction l generalizing n with
  | nil => rfl
  | cons x xs ih =>
    simp only [filterIdx]
    rw [ih (n + 1)]

theorem count_filterIdx_of_true {a : String} (f : String → Nat → Bool)
    (hf : ∀ i, f a i = true) (l : List String) (n : Nat) :
    (filterIdx f l n).count a = l.count a := by
  induction l generalizing n with
  | nil => rfl
  | cons x xs ih =>
    simp only [filterIdx]
    by_cases hx : x = a
    · subst hx
      rw [hf n]
      simp [ih]
    · cases hfx : f x n <;> simp [List.count_cons, hx, ih, Ne.symm hx]

theorem count_filterIdx_congr {a : String} (f g : String → Nat → Bool)
    (hfg : ∀ i, f a i = g a i) (l : List String) (n : Nat) :
    (filterIdx f l n).count a = (filterIdx g l n).count a := by
  induction l generalizing n with
  | nil => rfl
  | cons x xs ih =>
    simp only [filterIdx]
    by_cases hx : x = a
    · subst hx
      rw [hfg n]
      cases g x n <;> simp [ih]
    · cases hf : f x n <;> cases hg : g x n <;>
        simp [List.count_cons, Ne.symm hx, ih]

/-- Each non-first occurrence of a value is kept by the duplicate filter:
one entry per extra occurrence. -/
theorem dupOccurrences_count (ids : List String) (id : String) :
    (dupOccurrences ids).count id = ids.count id - 1 := by
  induction ids with
  | nil => rfl
  | cons a t ih =>
    unfold dupOccurrences
    simp only [filterIdx]
    have hcond : ((a :: t).indexOf a != 0) = false := by simp [List.indexOf_cons_self]
    simp only [hcond, Bool.false_eq_true, if_false]
    rw [filterIdx_succ]
    by_cases hid : id = a
    · subst hid
      rw [count_filterIdx_of_true _ (fun i => by simp [List.indexOf_cons_self])]
      simp
    · rw [count_filterIdx_congr _ (fun x i => t.indexOf x != i)
        (fun i => by
          rw [List.indexOf_cons_ne t (fun h => hid h.symm)]
          show (_ != _) = (_ != _)
          simp [bne, Nat.succ_eq_add_one])]
      have ht : (dupOccurrences t).count id = t.count id - 1 := ih
      unfold dupOccurrences at ht
      rw [ht]
      simp [List.count_cons, hid]

theorem filterMap_mapIdx_eq (g : γ → Option β) (h : α → Option β) :
    ∀ (data : List α) (F : Nat → α → γ), (∀ i row, g (F i row) = h row) →
      (data.mapIdx F).filterMap g = data.filterMap h
  | [], _, _ => rfl
  | x :: xs, F, hfg => by
    rw [List.mapIdx_cons, List.filterMap_cons, List.filterMap_cons, hfg 0 x]
    have ih := filterMap_mapIdx_eq g h xs (fun i row => F (i + 1) row)
      (fun i row => hfg (i + 1) row)
    cases h x <;> simp only [ih]

theorem forall_mem_flatMap_snd_mapIdx {Q : β → Prop} :
    ∀ (data : List α) (F : Nat → α → γ × List β),
      (∀ i row e, e ∈ (F i row).2 → Q e) →
      ∀ e ∈ (data.mapIdx F).flatMap (·.2), Q e
  | [], _, _ => by simp
  | x :: xs, F, h => by
    rw [List.mapIdx_cons, List.flatMap_cons]
    intro e he
    rcases List.mem_append.1 he with h1 | h2
    · exact h 0 x e h1
    · exact forall_mem_flatMap_snd_mapIdx xs (fun i => F (i + 1))
        (fun i row e he => h (i + 1) row e he) e h2

theorem mem_flatMap_snd_mapIdx :
    ∀ (data : List α) (F : Nat → α → γ × List β) (i : Nat) (row : α) (e : β),
      data[i]? = some row → e ∈ (F i row).2 → e ∈ (data.mapIdx F).flatMap (·.2)
  | [], _, i, row, e => by simp
  | x :: xs, F, 0, row, e => by
    intro hget he
    simp only [List.getElem?_cons_zero, Option.some.injEq] at hget
    subst hget
    rw [List.mapIdx_cons, List.flatMap_cons]
    exact List.mem_append_left _ he
  | x :: xs, F, n + 1, row, e => by
    intro hget he
    simp only [List.getElem?_cons_succ] at hget
    rw [List.mapIdx_cons, List.flatMap_cons]
    exact List.mem_append_right _
      (mem_flatMap_snd_mapIdx xs (fun i => F (i + 1)) n row e hget he)

/-! ## Per-row lemmas for the three validators -/

theorem clientOfPartial_processRow (i : Nat) (row : ClientRow) :
    clientOfPartial (processClientRow i row).1 = specClient row := by
  unfold processClientRow clientOfPartial specClient clientRequiredOk
  rcases h3 : parseIntJS (jsToString row.PriorityLevel) with _ | p <;>
    by_cases h1 : truthy row.ClientID <;>
      by_cases h2 : truthy row.ClientName <;>
        by_cases h5 : truthy row.AttributesJSON <;>
          rcases h4 : jsonParse (jsToString row.AttributesJSON) with _ | j <;>
            simp [h1, h2, h3, h4, h5] <;>
              by_cases hp : p < 1 ∨ 5 < p <;>
                simp [hp] <;>
                  split_ifs <;> first | rfl | (try simp_all) <;> omega

theorem processClientRow_errProps (i : Nat) (row : ClientRow) :
    ∀ e ∈ (processClientRow i row).2, e.rowIndex = some i ∧ e.severity = .error := by
  unfold processClientRow
  rcases h3 : parseIntJS (jsToString row.PriorityLevel) with _ | p <;>
    by_cases h1 : truthy row.ClientID <;>
      by_cases h2 : truthy row.ClientName <;>
        by_cases h5 : truthy row.AttributesJSON <;>
          rcases h4 : jsonParse (jsToString row.AttributesJSON) with _ | j <;>
            simp [h1, h2, h3, h4, h5] <;>
              (try split_ifs) <;>
                simp_all [List.forall_mem_cons]

theorem validateSlotField_fst (i j : Nat) (s ent fld : String) :
    (validateSlotField i s ent fld).1 = (validateSlotField j s ent fld).1 := by
  unfold validateSlotField
  rcases hj : jsonParse s with _ | v <;>
    rcases hr : rangeMatch s with _ | ⟨a, b⟩ <;>
      by_cases hs : s ≠ "" <;>
        simp [hj, hr, hs] <;>
          split_ifs <;> rfl

theorem workerOfPartial_processRow (i : Nat) (row : WorkerRow) :
    workerOfPartial (processWorkerRow i row).1 = specWorker row := by
  unfold processWorkerRow workerOfPartial specWorker workerRequiredOk
  rcases h3 : parseIntJS (jsToString row.MaxLoadPerPhase) with _ | m <;>
    rcases h6 : parseIntJS (jsToString row.QualificationLevel) with _ | q <;>
      by_cases h1 : truthy row.WorkerID <;>
        by_cases h2 : truthy row.WorkerName <;>
          simp [h1, h2, h3, h6] <;>
            (try by_cases hm : m < 1) <;>
              simp_all [validateSlotField_fst i 0] <;>
                split_ifs <;>
                  (try first | rfl | simp_all)
  all_goals omega

theorem processWorkerRow_errProps (i : Nat) (row : WorkerRow) :
    ∀ e ∈ (processWorkerRow i row).2, e.rowIndex = some i ∧ e.severity = .error := by
  have hslot : ∀ s ent fld, ∀ e ∈ (validateSlotField i s ent fld).2,
      e.rowIndex = some i ∧ e.severity = .error := by
    intro s ent fld e he
    unfold validateSlotField at he
    rcases hj : jsonParse s with _ | v <;>
      rcases hr : rangeMatch s with _ | ⟨a, b⟩ <;>
        by_cases hs : s ≠ "" <;>
          simp [hj, hr, hs] at he <;>
            (try split at he) <;>
              simp_all
  intro e he
  simp only [processWorkerRow, List.mem_append] at he
  rcases he with (((he | he) | he) | he) | he
  · split at he <;> simp_all
  · split at he <;> simp_all
  · exact hslot _ _ _ e he
  · split at he <;> (try split at he) <;> simp_all
  · split at he <;> simp_all

set_option maxHeartbeats 2000000 in
theorem taskOfPartial_processRow (i : Nat) (row : TaskRow) :
    taskOfPartial (processTaskRow i row).1 = specTask row := by
  unfold processTaskRow taskOfPartial specTask taskRequiredOk
  rcases h3 : parseFloatJS (jsToString row.Duration) with _ | d <;>
    rcases h6 : parseIntJS (jsToString row.MaxConcurrent) with _ | q <;>
      by_cases h1 : truthy row.TaskID <;>
        by_cases h2 : truthy row.TaskName <;>
          simp [h1, h2, h3, h6] <;>
            (try by_cases hd : d < 1) <;>
              (try by_cases hq : q < 1) <;>
                (try simp_all [validateSlotField_fst i 0]) <;>
                  (try split_ifs) <;>
                    (try first | rfl | simp_all)
  all_goals first | omega | linarith

theorem processTaskRow_errProps (i : Nat) (row : TaskRow) :
    ∀ e ∈ (processTaskRow i row).2, e.rowIndex = some i ∧ e.severity = .error := by
  have hslot : ∀ s ent fld, ∀ e ∈ (validateSlotField i s ent fld).2,
      e.rowIndex = some i ∧ e.severity = .error := by
    intro s ent fld e he
    unfold validateSlotField at he
    rcases hj : jsonParse s with _ | v <;>
      rcases hr : rangeMatch s with _ | ⟨a, b⟩ <;>
        by_cases hs : s ≠ "" <;>
          simp [hj, hr, hs] at he <;>
            (try split at he) <;>
              simp_all
  intro e he
  simp only [processTaskRow, List.mem_append] at he
  rcases he with (((he | he) | he) | he) | he
  · split at he <;> simp_all
  · split at he <;> simp_all
  · split at he <;> (try split at he) <;> simp_all
  · exact hslot _ _ _ e he
  · split at he <;> (try split at he) <;> simp_all

/-! ## Digit lemmas -/

theorem natDigitsRev_eq_digits : ∀ (fuel n : Nat), n ≤ fuel →
    natDigitsRev fuel n = Nat.digits 10 n
  | 0, n, h => by
    have : n = 0 := by omega
    subst this
    simp [natDigitsRev]
  | fuel + 1, n, h => by
    unfold natDigitsRev
    by_cases hn : n = 0
    · simp [hn]
    · rw [if_neg hn,
        natDigitsRev_eq_digits fuel (n / 10)
          (by
            have hd : n / 10 < n := Nat.div_lt_self (Nat.pos_of_ne_zero hn) (by norm_num)
            omega),
        Nat.digits_def' (b := 10) (by omega) (Nat.pos_of_ne_zero hn)]

/-! ## Validator-level lemmas -/

theorem validateClients_records (data : List ClientRow) :
    (validateClients data).1 = data.filterMap specClient := by
  show (data.mapIdx processClientRow).filterMap (fun r => clientOfPartial r.1) = _
  exact filterMap_mapIdx_eq _ specClient data processClientRow (fun i row => clientOfPartial_processRow i row)

theorem validateWorkers_records (data : List WorkerRow) :
    (validateWorkers data).1 = data.filterMap specWorker := by
  show (data.mapIdx processWorkerRow).filterMap (fun r => workerOfPartial r.1) = _
  exact filterMap_mapIdx_eq _ specWorker data processWorkerRow (fun i row => workerOfPartial_processRow i row)

theorem validateTasks_records (data : List TaskRow) :
    (validateTasks data).1 = data.filterMap specTask := by
  show (data.mapIdx processTaskRow).filterMap (fun r => taskOfPartial r.1) = _
  exact filterMap_mapIdx_eq _ specTask data processTaskRow (fun i row => taskOfPartial_processRow i row)

theorem validateClients_errors (data : List ClientRow) :
    (validateClients data).2 = (data.mapIdx processClientRow).flatMap (·.2) ++
      (dupOccurrences ((validateClients data).1.map (·.ClientID))).map dupClientError := rfl

theorem validateWorkers_errors (data : List WorkerRow) :
    (validateWorkers data).2 = (data.mapIdx processWorkerRow).flatMap (·.2) ++
      (dupOccurrences ((validateWorkers data).1.map (·.WorkerID))).map dupWorkerError := rfl

theorem validateTasks_errors (data : List TaskRow) :
    (validateTasks data).2 = (data.mapIdx processTaskRow).flatMap (·.2) ++
      (dupOccurrences ((validateTasks data).1.map (·.TaskID))).map dupTaskError := rfl

theorem dupClientError_injective : Function.Injective dupClientError := by
  intro a b h
  have h2 := congrArg ValidationError.message h
  simp only [dupClientError] at h2
  have h3 := congrArg String.data h2
  simp only [String.data_append] at h3
  exact String.ext (List.append_cancel_left h3)

theorem dupWorkerError_injective : Function.Injective dupWorkerError := by
  intro a b h
  have h2 := congrArg ValidationError.message h
  simp only [dupWorkerError] at h2
  have h3 := congrArg String.data h2
  simp only [String.data_append] at h3
  exact String.ext (List.append_cancel_left h3)

theorem dupTaskError_injective : Function.Injective dupTaskError := by
  intro a b h
  have h2 := congrArg ValidationError.message h
  simp only [dupTaskError] at h2
  have h3 := congrArg String.data h2
  simp only [String.data_append] at h3
  exact String.ext (List.append_cancel_left h3)

/-! ## C2: duplicate-identifier diagnostics -/

/-- C2 (counterexample): three otherwise-valid rows sharing one `ClientID`
yield all three records but TWO `duplicate_id` diagnostics — the claim's
"exactly one per duplicated value" fails at three repeats. -/
theorem duplicate_id_three_repeats_cex :
    (validateClients [⟨.str "C1", .str "A", .str "3", .undef, .undef, .undef⟩,
                      ⟨.str "C1", .str "A", .str "3", .undef, .undef, .undef⟩,
                      ⟨.str "C1", .str "A", .str "3", .undef, .undef, .undef⟩]).1.length = 3 ∧
    (validateClients [⟨.str "C1", .str "A", .str "3", .undef, .undef, .undef⟩,
                      ⟨.str "C1", .str "A", .str "3", .undef, .undef, .undef⟩,
                      ⟨.str "C1", .str "A", .str "3", .undef, .undef, .undef⟩]).2.count
      (dupClientError "C1") = 2 := by
  constructor
  · decide
  · decide

/-- C2 (amended): every record passing required-field validation survives in
the output collection even when its identifier duplicates another's, and each
identifier value occurring `k ≥ 2` times among included records produces
exactly `k - 1` `duplicate_id` diagnostics naming that identifier (no row
index) — one per extra occurrence, not one per value. -/
theorem duplicate_id_per_extra_occurrence (cdata : List ClientRow)
    (wdata : List WorkerRow) (tdata : List TaskRow) (id : String) :
    ((validateClients cdata).1 = cdata.filterMap specClient ∧
      (validateClients cdata).2.count (dupClientError id)
        = ((validateClients cdata).1.map (·.ClientID)).count id - 1)
    ∧ ((validateWorkers wdata).1 = wdata.filterMap specWorker ∧
      (validateWorkers wdata).2.count (dupWorkerError id)
        = ((validateWorkers wdata).1.map (·.WorkerID)).count id - 1)
    ∧ ((validateTasks tdata).1 = tdata.filterMap specTask ∧
      (validateTasks tdata).2.count (dupTaskError id)
        = ((validateTasks tdata).1.map (·.TaskID)).count id - 1) := by
  refine ⟨⟨validateClients_records cdata, ?_⟩,
          ⟨validateWorkers_records wdata, ?_⟩,
          ⟨validateTasks_records tdata, ?_⟩⟩
  · have hnot : dupClientError id ∉ (cdata.mapIdx processClientRow).flatMap (·.2) := by
      intro hmem
      have hq := forall_mem_flatMap_snd_mapIdx (Q := fun e => e.rowIndex ≠ none)
        cdata processClientRow
        (fun i row e he => by show e.rowIndex ≠ none; rw [(processClientRow_errProps i row e he).1]; simp)
        _ hmem
      exact hq rfl
    rw [validateClients_errors, List.count_append, List.count_eq_zero.2 hnot,
      Nat.zero_add, List.count_map_of_injective _ dupClientError dupClientError_injective,
      dupOccurrences_count]
  · have hnot : dupWorkerError id ∉ (wdata.mapIdx processWorkerRow).flatMap (·.2) := by
      intro hmem
      have hq := forall_mem_flatMap_snd_mapIdx (Q := fun e => e.rowIndex ≠ none)
        wdata processWorkerRow
        (fun i row e he => by show e.rowIndex ≠ none; rw [(processWorkerRow_errProps i row e he).1]; simp)
        _ hmem
      exact hq rfl
    rw [validateWorkers_errors, List.count_append, List.count_eq_zero.2 hnot,
      Nat.zero_add, List.count_map_of_injective _ dupWorkerError dupWorkerError_injective,
      dupOccurrences_count]
  · have hnot : dupTaskError id ∉ (tdata.mapIdx processTaskRow).flatMap (·.2) := by
      intro hmem
      have hq := forall_mem_flatMap_snd_mapIdx (Q := fun e => e.rowIndex ≠ none)
        tdata processTaskRow
        (fun i row e he => by show e.rowIndex ≠ none; rw [(processTaskRow_errProps i row e he).1]; simp)
        _ hmem
      exact hq rfl
    rw [validateTasks_errors, List.count_append, List.count_eq_zero.2 hnot,
      Nat.zero_add, List.count_map_of_injective _ dupTaskError dupTaskError_injective,
      dupOccurrences_count]

/-! ## C10: row-level validators emit only error severity -/

/-- C10: every diagnostic emitted by `validateClients`, `validateWorkers` or
`validateTasks` has severity `error`; the row validators never produce a
warning. -/
theorem row_validators_only_error_severity :
    (∀ (data : List ClientRow), ∀ e ∈ (validateClients data).2, e.severity = .error)
    ∧ (∀ (data : List WorkerRow), ∀ e ∈ (validateWorkers data).2, e.severity = .error)
    ∧ (∀ (data : List TaskRow), ∀ e ∈ (validateTasks data).2, e.severity = .error) := by
  refine ⟨?_, ?_, ?_⟩ <;> intro data e he
  · rw [validateClients_errors] at he
    rcases List.mem_append.1 he with h | h
    · exact forall_mem_flatMap_snd_mapIdx data processClientRow
        (fun i row e he => (processClientRow_errProps i row e he).2) e h
    · rcases List.mem_map.1 h with ⟨x, _, rfl⟩
      rfl
  · rw [validateWorkers_errors] at he
    rcases List.mem_append.1 he with h | h
    · exact forall_mem_flatMap_snd_mapIdx data processWorkerRow
        (fun i row e he => (processWorkerRow_errProps i row e he).2) e h
    · rcases List.mem_map.1 h with ⟨x, _, rfl⟩
      rfl
  · rw [validateTasks_errors] at he
    rcases List.mem_append.1 he with h | h
    · exact forall_mem_flatMap_snd_mapIdx data processTaskRow
        (fun i row e he => (processTaskRow_errProps i row e he).2) e h
    · rcases List.mem_map.1 h with ⟨x, _, rfl⟩
      rfl

/-- C10 (witness): a concrete diagnostic emitted for a row missing its
`ClientID` has severity `error`. -/
theorem row_validators_only_error_severity_witness :
    ∀ e ∈ (validateClients [⟨.undef, .str "A", .str "3", .undef, .undef, .undef⟩]).2,
      e.severity = .error :=
  row_validators_only_error_severity.1 [⟨.undef, .str "A", .str "3", .undef, .undef, .undef⟩]

/-! ## C3: record inclusion iff required fields validate -/

/-- C3 (counterexample): a row whose `ClientID` is a single space is truthy,
so the required-field check passes and emits no diagnostic, but the value
trims to `""`, so the record is dropped — a record silently vanishes with no
error at its row index. -/
theorem required_fields_whitespace_cex :
    validateClients [⟨.str " ", .str "A", .str "3", .undef, .undef, .undef⟩]
      = ([], []) := by
  decide

/-- C3 (amended): a candidate record is appended iff every required field for
its kind validated AND its required string fields are nonempty after trimming
(a whitespace-only id or name passes the presence check but yields an empty
trimmed field: the record is dropped without a diagnostic).  Every row
failing one of the code's required-field checks has that failure visible as
an error diagnostic at the row's index. -/
theorem record_inclusion_characterization :
    (∀ (data : List ClientRow), (validateClients data).1 = data.filterMap specClient)
    ∧ (∀ (data : List WorkerRow), (validateWorkers data).1 = data.filterMap specWorker)
    ∧ (∀ (data : List TaskRow), (validateTasks data).1 = data.filterMap specTask)
    ∧ (∀ (data : List ClientRow) (i : Nat) (row : ClientRow), data[i]? = some row →
        (truthy row.ClientID = false →
          (⟨"missing_required", "ClientID is required", "client", some "ClientID",
            .error, some i⟩ : ValidationError) ∈ (validateClients data).2)
        ∧ (truthy row.ClientName = false →
          (⟨"missing_required", "ClientName is required", "client", some "ClientName",
            .error, some i⟩ : ValidationError) ∈ (validateClients data).2)
        ∧ ((∀ p, parseIntJS (jsToString row.PriorityLevel) = some p → p < 1 ∨ 5 < p) →
          (⟨"out_of_range", "PriorityLevel must be between 1 and 5", "client",
            some "PriorityLevel", .error, some i⟩ : ValidationError) ∈ (validateClients data).2))
    ∧ (∀ (data : List WorkerRow) (i : Nat) (row : WorkerRow), data[i]? = some row →
        (truthy row.WorkerID = false →
          (⟨"missing_required", "WorkerID is required", "worker", some "WorkerID",
            .error, some i⟩ : ValidationError) ∈ (validateWorkers data).2)
        ∧ (truthy row.WorkerName = false →
          (⟨"missing_required", "WorkerName is required", "worker", some "WorkerName",
            .error, some i⟩ : ValidationError) ∈ (validateWorkers data).2)
        ∧ (parseIntJS (jsToString row.MaxLoadPerPhase) = none →
          (⟨"invalid_format", "MaxLoadPerPhase must be a number", "worker",
            some "MaxLoadPerPhase", .error, some i⟩ : ValidationError) ∈ (validateWorkers data).2)
        ∧ (∀ m, parseIntJS (jsToString row.MaxLoadPerPhase) = some m → m < 1 →
          (⟨"out_of_range", "MaxLoadPerPhase must be at least 1", "worker",
            some "MaxLoadPerPhase", .error, some i⟩ : ValidationError) ∈ (validateWorkers data).2))
    ∧ (∀ (data : List TaskRow) (i : Nat) (row : TaskRow), data[i]? = some row →
        (truthy row.TaskID = false →
          (⟨"missing_required", "TaskID is required", "task", some "TaskID",
            .error, some i⟩ : ValidationError) ∈ (validateTasks data).2)
        ∧ (truthy row.TaskName = false →
          (⟨"missing_required", "TaskName is required", "task", some "TaskName",
            .error, some i⟩ : ValidationError) ∈ (validateTasks data).2)
        ∧ (parseFloatJS (jsToString row.Duration) = none →
          (⟨"invalid_format", "Duration must be a number", "task",
            some "Duration", .error, some i⟩ : ValidationError) ∈ (validateTasks data).2)
        ∧ (∀ d, parseFloatJS (jsToString row.Duration) = some d → d < 1 →
          (⟨"out_of_range", "Duration must be at least 1", "task",
            some "Duration", .error, some i⟩ : ValidationError) ∈ (validateTasks data).2)) := by
  refine ⟨validateClients_records, validateWorkers_records, validateTasks_records, ?_, ?_, ?_⟩
  · intro data i row hget
    refine ⟨?_, ?_, ?_⟩ <;> intro h
    · rw [validateClients_errors]
      refine List.mem_append_left _ (mem_flatMap_snd_mapIdx data processClientRow i row _ hget ?_)
      simp [processClientRow, h]
    · rw [validateClients_errors]
      refine List.mem_append_left _ (mem_flatMap_snd_mapIdx data processClientRow i row _ hget ?_)
      simp [processClientRow, h]
    · rw [validateClients_errors]
      refine List.mem_append_left _ (mem_flatMap_snd_mapIdx data processClientRow i row _ hget ?_)
      rcases hp : parseIntJS (jsToString row.PriorityLevel) with _ | p
      · simp [processClientRow, hp]
      · have hb := h p hp
        simp [processClientRow, hp, hb]
  · intro data i row hget
    refine ⟨?_, ?_, ?_, ?_⟩
    · intro h
      rw [validateWorkers_errors]
      refine List.mem_append_left _ (mem_flatMap_snd_mapIdx data processWorkerRow i row _ hget ?_)
      simp [processWorkerRow, h]
    · intro h
      rw [validateWorkers_errors]
      refine List.mem_append_left _ (mem_flatMap_snd_mapIdx data processWorkerRow i row _ hget ?_)
      simp [processWorkerRow, h]
    · intro h
      rw [validateWorkers_errors]
      refine List.mem_append_left _ (mem_flatMap_snd_mapIdx data processWorkerRow i row _ hget ?_)
      simp [processWorkerRow, h]
    · intro m hm hlt
      rw [validateWorkers_errors]
      refine List.mem_append_left _ (mem_flatMap_snd_mapIdx data processWorkerRow i row _ hget ?_)
      simp [processWorkerRow, hm, hlt]
  · intro data i row hget
    refine ⟨?_, ?_, ?_, ?_⟩
    · intro h
      rw [validateTasks_errors]
      refine List.mem_append_left _ (mem_flatMap_snd_mapIdx data processTaskRow i row _ hget ?_)
      simp [processTaskRow, h]
    · intro h
      rw [validateTasks_errors]
      refine List.mem_append_left _ (mem_flatMap_snd_mapIdx data processTaskRow i row _ hget ?_)
      simp [processTaskRow, h]
    · intro h
      rw [validateTasks_errors]
      refine List.mem_append_left _ (mem_flatMap_snd_mapIdx data processTaskRow i row _ hget ?_)
      simp [processTaskRow, h]
    · intro d hd hlt
      rw [validateTasks_errors]
      refine List.mem_append_left _ (mem_flatMap_snd_mapIdx data processTaskRow i row _ hget ?_)
      simp [processTaskRow, hd, hlt]

/-- C3 (witness): a row with an absent `ClientID` produces the
`missing_required` diagnostic at row index 0. -/
theorem record_inclusion_characterization_witness :
    (⟨"missing_required", "ClientID is required", "client", some "ClientID",
      .error, some 0⟩ : ValidationError) ∈
      (validateClients [⟨.undef, .str "A", .str "3", .undef, .undef, .undef⟩]).2 :=
  (record_inclusion_characterization.2.2.2.1
    [⟨.undef, .str "A", .str "3", .undef, .undef, .undef⟩] 0 _ rfl).1 rfl

/-! ## C4: availability / phase-spec field normalization -/

theorem validateSlotField_spec (i : Nat) (s ent fld : String) :
    (∀ a b, jsonParse s = none → rangeMatch s = some (a, b) → a ≤ b →
      validateSlotField i s ent fld = (stringifyIntList (rangeList a b), []))
    ∧ (∀ v, jsonParse s = some v → isNumArray v = true →
      validateSlotField i s ent fld = (s, []))
    ∧ (s ≠ "" → ∀ v, jsonParse s = some v → isNumArray v = false →
      (validateSlotField i s ent fld).1 = s ∧
      ∃ e ∈ (validateSlotField i s ent fld).2, e.type = "invalid_format" ∧
        e.field = some fld ∧ e.rowIndex = some i ∧ e.severity = .error)
    ∧ (s ≠ "" → ∀ a b, jsonParse s = none → rangeMatch s = some (a, b) → b < a →
      (validateSlotField i s ent fld).1 = s ∧
      ∃ e ∈ (validateSlotField i s ent fld).2, e.type = "invalid_format" ∧
        e.field = some fld ∧ e.rowIndex = some i ∧ e.severity = .error)
    ∧ (s ≠ "" → jsonParse s = none → rangeMatch s = none →
      (validateSlotField i s ent fld).1 = s ∧
      ∃ e ∈ (validateSlotField i s ent fld).2, e.type = "invalid_format" ∧
        e.field = some fld ∧ e.rowIndex = some i ∧ e.severity = .error) := by
  have hne : ∀ v, jsonParse s = some v → s ≠ "" := by
    intro v hv h
    rw [h] at hv
    exact absurd hv (by simp [show jsonParse "" = none from rfl])
  have hrne : ∀ a b, rangeMatch s = some (a, b) → s ≠ "" := by
    intro a b hr h
    rw [h, show rangeMatch "" = none from rfl] at hr
    exact absurd hr (by simp)
  refine ⟨?_, ?_, ?_, ?_, ?_⟩
  · intro a b hj hr hab
    simp [validateSlotField, hrne a b hr, hj, hr, hab]
  · intro v hj hnum
    simp [validateSlotField, hne v hj, hj, hnum]
  · intro hs v hj hnum
    simp [validateSlotField, hs, hj, hnum]
  · intro hs a b hj hr hba
    have : ¬ a ≤ b := by omega
    simp [validateSlotField, hs, hj, hr, this]
  · intro hs hj hr
    simp [validateSlotField, hs, hj, hr]

theorem processWorkerRow_slots (i : Nat) (row : WorkerRow) :
    (processWorkerRow i row).1.AvailableSlots =
      (validateSlotField i
        (if truthy row.AvailableSlots then jsTrim (jsToString row.AvailableSlots) else "")
        "worker" "AvailableSlots").1
    ∧ ∀ e ∈ (validateSlotField i
        (if truthy row.AvailableSlots then jsTrim (jsToString row.AvailableSlots) else "")
        "worker" "AvailableSlots").2, e ∈ (processWorkerRow i row).2 := by
  constructor
  · rfl
  · intro e he
    simp only [processWorkerRow, List.mem_append]
    tauto

theorem processTaskRow_slots (i : Nat) (row : TaskRow) :
    (processTaskRow i row).1.PreferredPhases =
      (validateSlotField i
        (if truthy row.PreferredPhases then jsTrim (jsToString row.PreferredPhases) else "")
        "task" "PreferredPhases").1
    ∧ ∀ e ∈ (validateSlotField i
        (if truthy row.PreferredPhases then jsTrim (jsToString row.PreferredPhases) else "")
        "task" "PreferredPhases").2, e ∈ (processTaskRow i row).2 := by
  constructor
  · rfl
  · intro e he
    simp only [processTaskRow, List.mem_append]
    tauto

/-- C4: for worker rows with nonempty trimmed `AvailableSlots` and task rows
with nonempty trimmed `PreferredPhases`: a value that is not valid JSON but
matches the range shorthand with `start <= end` has its stored field
rewritten to the canonical JSON list encoding of the inclusive range; any
parse failure (valid JSON that is not an all-number array, a shorthand range
with `start > end`, or no format match) leaves the stored field as the
original trimmed string and emits an `invalid_format` error at that row
index. -/
theorem slot_field_normalization :
    (∀ (data : List WorkerRow) (i : Nat) (row : WorkerRow), data[i]? = some row →
      truthy row.AvailableSlots = true →
      ∀ s, s = jsTrim (jsToString row.AvailableSlots) → s ≠ "" →
      ((∀ a b, jsonParse s = none → rangeMatch s = some (a, b) → a ≤ b →
        (processWorkerRow i row).1.AvailableSlots = stringifyIntList (rangeList a b))
      ∧ (∀ v, jsonParse s = some v → isNumArray v = true →
        (processWorkerRow i row).1.AvailableSlots = s)
      ∧ (((∃ v, jsonParse s = some v ∧ isNumArray v = false)
          ∨ (jsonParse s = none ∧ ∃ a b, rangeMatch s = some (a, b) ∧ b < a)
          ∨ (jsonParse s = none ∧ rangeMatch s = none)) →
        (processWorkerRow i row).1.AvailableSlots = s ∧
        ∃ e ∈ (validateWorkers data).2, e.type = "invalid_format" ∧
          e.field = some "AvailableSlots" ∧ e.rowIndex = some i ∧ e.severity = .error)))
    ∧ (∀ (data : List TaskRow) (i : Nat) (row : TaskRow), data[i]? = some row →
      truthy row.PreferredPhases = true →
      ∀ s, s = jsTrim (jsToString row.PreferredPhases) → s ≠ "" →
      ((∀ a b, jsonParse s = none → rangeMatch s = some (a, b) → a ≤ b →
        (processTaskRow i row).1.PreferredPhases = stringifyIntList (rangeList a b))
      ∧ (∀ v, jsonParse s = some v → isNumArray v = true →
        (processTaskRow i row).1.PreferredPhases = s)
      ∧ (((∃ v, jsonParse s = some v ∧ isNumArray v = false)
          ∨ (jsonParse s = none ∧ ∃ a b, rangeMatch s = some (a, b) ∧ b < a)
          ∨ (jsonParse s = none ∧ rangeMatch s = none)) →
        (processTaskRow i row).1.PreferredPhases = s ∧
        ∃ e ∈ (validateTasks data).2, e.type = "invalid_format" ∧
          e.field = some "PreferredPhases" ∧ e.rowIndex = some i ∧ e.severity = .error))) := by
  constructor
  · intro data i row hget htr s hs hsne
    have hif : (if truthy row.AvailableSlots then jsTrim (jsToString row.AvailableSlots) else "")
        = s := by rw [htr, if_pos rfl, hs]
    have hfield := (processWorkerRow_slots i row).1
    rw [hif] at hfield
    have hmem := (processWorkerRow_slots i row).2
    rw [hif] at hmem
    have hspec := validateSlotField_spec i s "worker" "AvailableSlots"
    refine ⟨?_, ?_, ?_⟩
    · intro a b hj hr hab
      rw [hfield, hspec.1 a b hj hr hab]
    · intro v hj hnum
      rw [hfield, hspec.2.1 v hj hnum]
    · intro hfail
      have hconc : (validateSlotField i s "worker" "AvailableSlots").1 = s ∧
          ∃ e ∈ (validateSlotField i s "worker" "AvailableSlots").2,
            e.type = "invalid_format" ∧ e.field = some "AvailableSlots" ∧
            e.rowIndex = some i ∧ e.severity = .error := by
        rcases hfail with ⟨v, hj, hnum⟩ | ⟨hj, a, b, hr, hba⟩ | ⟨hj, hr⟩
        · exact hspec.2.2.1 hsne v hj hnum
        · exact hspec.2.2.2.1 hsne a b hj hr hba
        · exact hspec.2.2.2.2 hsne hj hr
      rcases hconc with ⟨h1, e, he, hprops⟩
      refine ⟨by rw [hfield, h1], e, ?_, hprops⟩
      rw [validateWorkers_errors]
      exact List.mem_append_left _
        (mem_flatMap_snd_mapIdx data processWorkerRow i row e hget (hmem e he))
  · intro data i row hget htr s hs hsne
    have hif : (if truthy row.PreferredPhases then jsTrim (jsToString row.PreferredPhases) else "")
        = s := by rw [htr, if_pos rfl, hs]
    have hfield := (processTaskRow_slots i row).1
    rw [hif] at hfield
    have hmem := (processTaskRow_slots i row).2
    rw [hif] at hmem
    have hspec := validateSlotField_spec i s "task" "PreferredPhases"
    refine ⟨?_, ?_, ?_⟩
    · intro a b hj hr hab
      rw [hfield, hspec.1 a b hj hr hab]
    · intro v hj hnum
      rw [hfield, hspec.2.1 v hj hnum]
    · intro hfail
      have hconc : (validateSlotField i s "task" "PreferredPhases").1 = s ∧
          ∃ e ∈ (validateSlotField i s "task" "PreferredPhases").2,
            e.type = "invalid_format" ∧ e.field = some "PreferredPhases" ∧
            e.rowIndex = some i ∧ e.severity = .error := by
        rcases hfail with ⟨v, hj, hnum⟩ | ⟨hj, a, b, hr, hba⟩ | ⟨hj, hr⟩
        · exact hspec.2.2.1 hsne v hj hnum
        · exact hspec.2.2.2.1 hsne a b hj hr hba
        · exact hspec.2.2.2.2 hsne hj hr
      rcases hconc with ⟨h1, e, he, hprops⟩
      refine ⟨by rw [hfield, h1], e, ?_, hprops⟩
      rw [validateTasks_errors]
      exact List.mem_append_left _
        (mem_flatMap_snd_mapIdx data processTaskRow i row e hget (hmem e he))

/-- C4 (witness): the worker range shorthand `"1-3"` is rewritten to
`"[1,2,3]"`, and the invalid range `"3-1"` keeps the original string and
emits an `invalid_format` error at row index 0. -/
theorem slot_field_normalization_witness :
    (processWorkerRow 0 ⟨.str "W1", .str "W", .undef, .str "1-3", .str "2", .undef, .undef⟩).1.AvailableSlots
      = "[1,2,3]" ∧
    (processTaskRow 0 ⟨.str "T1", .str "T", .undef, .str "2", .undef, .str "3-1", .undef⟩).1.PreferredPhases
      = "3-1" ∧
    ∃ e ∈ (validateTasks [⟨.str "T1", .str "T", .undef, .str "2", .undef, .str "3-1", .undef⟩]).2,
      e.type = "invalid_format" ∧ e.field = some "PreferredPhases" ∧
      e.rowIndex = some 0 ∧ e.severity = .error := by
  refine ⟨?_, ?_, ?_⟩
  · have h := ((slot_field_normalization.1
      [⟨.str "W1", .str "W", .undef, .str "1-3", .str "2", .undef, .undef⟩] 0
      ⟨.str "W1", .str "W", .undef, .str "1-3", .str "2", .undef, .undef⟩ rfl
      (by decide) "1-3" (by decide) (by decide)).1 1 3 rfl rfl (by norm_num))
    rw [h]
    decide
  · exact ((slot_field_normalization.2
      [⟨.str "T1", .str "T", .undef, .str "2", .undef, .str "3-1", .undef⟩] 0
      ⟨.str "T1", .str "T", .undef, .str "2", .undef, .str "3-1", .undef⟩ rfl
      (by decide) "3-1" (by decide) (by decide)).2.2
      (Or.inr (Or.inl ⟨rfl, 3, 1, rfl, by norm_num⟩))).1
  · exact ((slot_field_normalization.2
      [⟨.str "T1", .str "T", .undef, .str "2", .undef, .str "3-1", .undef⟩] 0
      ⟨.str "T1", .str "T", .undef, .str "2", .undef, .str "3-1", .undef⟩ rfl
      (by decide) "3-1" (by decide) (by decide)).2.2
      (Or.inr (Or.inl ⟨rfl, 3, 1, rfl, by norm_num⟩))).2

/-! ## C5: unknown task references -/

theorem flatMap_ite_nil_single (p : α → Bool) (f : α → β) :
    ∀ l : List α, (l.flatMap fun x => if p x then [] else [f x])
      = (l.filter fun x => !p x).map f
  | [] => rfl
  | x :: xs => by
    rw [List.flatMap_cons, List.filter_cons]
    cases hp : p x <;>
      simp [flatMap_ite_nil_single p f xs]

theorem mem_unknownRefBlock_type (clients : List Client) (tasks : List Task) :
    ∀ e ∈ unknownRefBlock clients tasks, e.type = "unknown_reference" := by
  intro e he
  simp only [unknownRefBlock, List.mem_flatMap] at he
  obtain ⟨c, _, he⟩ := he
  split at he
  · simp only [List.mem_flatMap] at he
    obtain ⟨tid, _, he⟩ := he
    split at he
    · simp at he
    · simp only [List.mem_singleton] at he
      subst he
      rfl
  · simp at he

theorem mem_skillCovBlock_type (workers : List Worker) (tasks : List Task) :
    ∀ e ∈ skillCovBlock workers tasks, e.type = "skill_coverage" := by
  intro e he
  simp only [skillCovBlock, List.mem_flatMap] at he
  obtain ⟨t, _, he⟩ := he
  split at he
  · simp only [List.mem_flatMap] at he
    obtain ⟨sk, _, he⟩ := he
    split at he
    · simp at he
    · simp only [List.mem_singleton] at he
      subst he
      rfl
  · simp at he

theorem mem_phaseAvailCheck (workers : List Worker) (t : Task) :
    ∀ e ∈ phaseAvailCheck workers t, e = phaseAvailWarning t := by
  intro e he
  unfold phaseAvailCheck at he
  rcases hj : jsonParse t.PreferredPhases with _ | v <;>
    by_cases hs : t.PreferredPhases = "" <;>
      simp [hj, hs] at he <;>
        (try split at he) <;>
          (try split at he) <;>
            (try split at he) <;>
              simp_all

theorem mem_groupRefBlock_type (clients : List Client) (workers : List Worker) :
    ∀ e ∈ groupRefBlock clients workers, e.type = "group_reference" := by
  intro e he
  simp only [groupRefBlock, List.mem_flatMap] at he
  obtain ⟨c, _, he⟩ := he
  split at he
  · simp only [List.mem_singleton] at he
    subst he
    rfl
  · simp at he

theorem flatMap_congr_fun (l : List α) (f g : α → List β) (h : ∀ x, f x = g x) :
    l.flatMap f = l.flatMap g := by
  induction l with
  | nil => rfl
  | cons x xs ih => simp only [List.flatMap_cons, h x, ih]

/-- C5: `validateCrossReferences` emits exactly one `unknown_reference` error
for each comma-separated trimmed entry of each client's nonempty
`RequestedTaskIDs` that matches no task's `TaskID` exactly, and none for
matched entries or clients with empty request lists; in particular a lone
client requesting `"T9"` against an empty task collection yields exactly the
one error naming the client and `T9`. -/
theorem unknown_reference_per_entry :
    (∀ (clients : List Client) (workers : List Worker) (tasks : List Task),
      (validateCrossReferences clients workers tasks).filter
          (fun e => e.type == "unknown_reference")
        = clients.flatMap fun c =>
            if c.RequestedTaskIDs ≠ "" then
              ((splitTrim c.RequestedTaskIDs).filter
                (fun tid => !(tasks.map (·.TaskID)).contains tid)).map (unknownTaskError c)
            else [])
    ∧ validateCrossReferences [⟨"C1", "A", 3, "T9", "", .str ""⟩] [] []
        = [unknownTaskError ⟨"C1", "A", 3, "T9", "", .str ""⟩ "T9"] := by
  constructor
  · intro clients workers tasks
    unfold validateCrossReferences
    rw [List.filter_append, List.filter_append, List.filter_append]
    have h2 : (skillCovBlock workers tasks).filter
        (fun e => e.type == "unknown_reference") = [] :=
      List.filter_eq_nil_iff.2 (fun e he => by
        rw [mem_skillCovBlock_type workers tasks e he]; decide)
    have h3 : ((tasks.flatMap fun t => phaseAvailCheck workers t).filter
        (fun e => e.type == "unknown_reference")) = [] :=
      List.filter_eq_nil_iff.2 (fun e he => by
        simp only [List.mem_flatMap] at he
        obtain ⟨t, _, he⟩ := he
        rw [mem_phaseAvailCheck workers t e he]
        show ¬(("phase_availability" : String) == "unknown_reference") = true
        decide)
    have h4 : (groupRefBlock clients workers).filter
        (fun e => e.type == "unknown_reference") = [] :=
      List.filter_eq_nil_iff.2 (fun e he => by
        rw [mem_groupRefBlock_type clients workers e he]; decide)
    have h1 : (unknownRefBlock clients tasks).filter
        (fun e => e.type == "unknown_reference") = unknownRefBlock clients tasks :=
      List.filter_eq_self.2 (fun e he => by
        rw [mem_unknownRefBlock_type clients tasks e he]; decide)
    rw [h1, h2, h3, h4]
    simp only [List.append_nil]
    unfold unknownRefBlock
    refine flatMap_congr_fun clients _ _ fun c => ?_
    split
    · exact flatMap_ite_nil_single _ (unknownTaskError c) _
    · rfl
  · decide

/-! ## C6: phase availability -/

/-- C6 (counterexample): the task prefers phase 1 and requires skill `"s"`;
the only worker is skill-qualified but its `AvailableSlots` (`"oops"`) fails
to JSON-parse, so the availability check throws inside the `try` and the
`catch` suppresses the warning even though no qualified worker is available
in the preferred phases — the claim demands a warning here. -/
theorem phase_availability_exception_cex :
    jsonParse "oops" = none ∧
    qualifiedFor ⟨"T1", "T", "", 1, "s", "[1]", none⟩
      ⟨"W1", "W", "s", "oops", 1, "", none⟩ = true ∧
    validateCrossReferences [] [⟨"W1", "W", "s", "oops", 1, "", none⟩]
      [⟨"T1", "T", "", 1, "s", "[1]", none⟩] = [] := by
  refine ⟨rfl, by decide, by decide⟩

theorem String.length_pos_of_ne (s : String) (h : s ≠ "") : s.length > 0 := by
  cases s with
  | mk data =>
    cases data with
    | nil => exact absurd rfl h
    | cons c cs => simp [String.length]

theorem someAvailable_ok (ps : List Json) :
    ∀ (l : List Worker),
      (∀ w ∈ l, slotsParseOk w = true) →
      someAvailable ps l =
        .ok (l.any fun w => ps.any fun p => (workerParsedSlots w).any (jsStrictEqPrim p))
  | [], _ => rfl
  | w :: ws, H => by
    have hw : workerSlotsE w = .ok (workerParsedSlots w) := by
      have h := H w (by simp)
      unfold slotsParseOk at h
      by_cases hne : w.AvailableSlots = ""
      · simp [workerSlotsE, workerParsedSlots, hne]
      · rcases hj : jsonParse w.AvailableSlots with _ | v
        · simp [hj, hne] at h
        · cases v <;> simp_all [workerSlotsE, workerParsedSlots, hne, hj]
    rw [List.any_cons]
    unfold someAvailable
    rw [hw]
    by_cases hp : (ps.any fun p => (workerParsedSlots w).any (jsStrictEqPrim p)) = true
    · simp [hp]
    · simp only [Bool.not_eq_true] at hp
      simp only [hp, Bool.false_eq_true, if_false, Bool.false_or]
      exact someAvailable_ok ps ws (fun w hw => H w (by simp [hw]))

/-- C6 (amended): provided every worker's `AvailableSlots` is empty or valid
JSON (otherwise evaluating the check can throw, and the `catch` silently
skips the task), a task whose stored `PreferredPhases` parses to a non-empty
JSON array warns iff no worker holding all its required skills has a parsed
available slot strictly equal to one of the parsed preferred phases; tasks
with an empty or unparsable phase set never warn, and a stored value parsing
to a non-empty JSON string warns exactly when there is no skill-qualified
worker at all. -/
theorem phase_availability_characterization
    (clients : List Client) (workers : List Worker) (tasks : List Task)
    (H : ∀ w ∈ workers, slotsParseOk w = true) :
    ((tasks.flatMap fun t => phaseAvailCheck workers t)
      = tasks.flatMap fun t =>
          match jsonParse t.PreferredPhases with
          | some (.arr ps) =>
            if ps.isEmpty = false ∧ ((workers.filter (qualifiedFor t)).any
                fun w => ps.any fun p => (workerParsedSlots w).any (jsStrictEqPrim p)) = false
            then [phaseAvailWarning t] else []
          | some (.str s) =>
            if s ≠ "" ∧ (workers.filter (qualifiedFor t)).isEmpty = true
            then [phaseAvailWarning t] else []
          | _ => [])
    ∧ (validateCrossReferences clients workers tasks).filter
        (fun e => e.type == "phase_availability")
      = tasks.flatMap fun t => phaseAvailCheck workers t := by
  constructor
  · refine flatMap_congr_fun tasks _ _ fun t => ?_
    unfold phaseAvailCheck
    by_cases hs : t.PreferredPhases = ""
    · have hj : jsonParse t.PreferredPhases = none := by rw [hs]; rfl
      simp [hs, hj, show jsonParse "" = none from rfl]
    · rw [if_neg hs]
      rcases hj : jsonParse t.PreferredPhases with _ | v
      · simp only [hj]
      · cases v with
        | arr ps =>
          simp only [hj]
          rw [someAvailable_ok ps (workers.filter (qualifiedFor t))
            (fun w hw => H w (List.mem_of_mem_filter hw))]
          cases ps with
          | nil => simp
          | cons p ps' =>
            have hlen : 0 < (p :: ps').length := by simp
            rw [if_pos hlen]
            cases hany : ((workers.filter (qualifiedFor t)).any
                fun w => (p :: ps').any fun q => (workerParsedSlots w).any (jsStrictEqPrim q)) with
            | true => simp
            | false => simp
        | str s =>
          simp only [hj]
          by_cases hse : s = ""
          · subst hse
            simp
          · have : s.length > 0 := String.length_pos_of_ne s hse
            rw [if_pos this]
            simp [hse]
        | null => simp [hj]
        | bool b => simp [hj]
        | num q => simp [hj]
        | obj ms => simp [hj]
  · unfold validateCrossReferences
    rw [List.filter_append, List.filter_append, List.filter_append]
    have h1 : (unknownRefBlock clients tasks).filter
        (fun e => e.type == "phase_availability") = [] :=
      List.filter_eq_nil_iff.2 (fun e he => by
        rw [mem_unknownRefBlock_type clients tasks e he]; decide)
    have h2 : (skillCovBlock workers tasks).filter
        (fun e => e.type == "phase_availability") = [] :=
      List.filter_eq_nil_iff.2 (fun e he => by
        rw [mem_skillCovBlock_type workers tasks e he]; decide)
    have h4 : (groupRefBlock clients workers).filter
        (fun e => e.type == "phase_availability") = [] :=
      List.filter_eq_nil_iff.2 (fun e he => by
        rw [mem_groupRefBlock_type clients workers e he]; decide)
    have h3 : ((tasks.flatMap fun t => phaseAvailCheck workers t).filter
        (fun e => e.type == "phase_availability"))
        = tasks.flatMap fun t => phaseAvailCheck workers t :=
      List.filter_eq_self.2 (fun e he => by
        simp only [List.mem_flatMap] at he
        obtain ⟨t, _, he⟩ := he
        rw [mem_phaseAvailCheck workers t e he]
        show (("phase_availability" : String) == "phase_availability") = true
        decide)
    rw [h1, h2, h3, h4]
    simp

/-- C6 (witness): the single qualified worker is only available in phase 2
while the task prefers phase 1, so the warning is emitted. -/
theorem phase_availability_witness :
    (validateCrossReferences [] [⟨"W1", "W", "s", "[2]", 1, "", none⟩]
        [⟨"T1", "T", "", 1, "s", "[1]", none⟩]).filter
      (fun e => e.type == "phase_availability")
      = [phaseAvailWarning ⟨"T1", "T", "", 1, "s", "[1]", none⟩] := by
  have h := phase_availability_characterization []
    [⟨"W1", "W", "s", "[2]", 1, "", none⟩] [⟨"T1", "T", "", 1, "s", "[1]", none⟩]
    (by decide)
  rw [h.2, h.1]
  decide

/-! ## Association-list lemmas -/

theorem alook_map_replace (k : String) (v : β) (k' : String) :
    ∀ r : Alist β,
      alook (r.map fun p => if p.1 == k then (k, v) else p) k'
        = if k' = k then (alook r k).map (fun _ => v) else alook r k'
  | [] => by by_cases hk : k' = k <;> simp [alook, hk]
  | (kp, vp) :: r => by
    have ih := alook_map_replace k v k' r
    simp only [alook] at ih
    by_cases hkp : kp = k
    · subst hkp
      by_cases hk' : k' = kp
      · subst hk'
        simp [alook, List.find?_cons]
      · simp only [alook, List.map_cons, List.find?_cons, beq_self_eq_true, if_true,
          show (kp == k') = false by simp [Ne.symm hk'], Bool.false_eq_true, if_false,
          cond_false]
        rw [ih]
        simp [hk']
    · have hh : (kp == k) = false := by simp [hkp]
      by_cases hk' : k' = kp
      · subst hk'
        simp [alook, List.find?_cons, hh, if_neg (fun h => hkp (h.symm ▸ rfl) : ¬ k' = k)]
      · simp only [alook, List.map_cons, List.find?_cons, hh, Bool.false_eq_true,
          if_false, show (kp == k') = false by simp [Ne.symm hk'], cond_false]
        rw [ih]

theorem keys_nodup_upsert (r : Alist β) (k : String) (v : β)
    (h : (r.map Prod.fst).Nodup) : ((upsert r k v).map Prod.fst).Nodup := by
  unfold upsert
  by_cases hp : (r.find? fun p => p.1 == k).isSome
  · rw [if_pos hp]
    have heq : (r.map fun p => if p.1 == k then (k, v) else p).map Prod.fst
        = r.map Prod.fst := by
      rw [List.map_map]
      refine List.map_congr_left fun p _ => ?_
      by_cases hq : (p.1 == k) = true
      · simp only [Function.comp_apply, hq, if_true]
        simp at hq
        simp [hq]
      · have hq2 : p.1 ≠ k := by simpa using hq
        simp [Function.comp_apply, hq2]
    rw [heq]
    exact h
  · rw [if_neg hp]
    have hnone : (r.find? fun p => p.1 == k) = none := by
      cases hh : r.find? fun p => p.1 == k
      · rfl
      · rw [hh] at hp; simp at hp
    have hnm : k ∉ r.map Prod.fst := by
      intro hmem
      obtain ⟨q, hq, hq2⟩ := List.mem_map.1 hmem
      have := List.find?_eq_none.1 hnone q hq
      simp [hq2] at this
    simp [List.nodup_append, h, hnm]

theorem alook_of_mem_nodup {r : Alist β} (h : (r.map Prod.fst).Nodup)
    {k : String} {v : β} (hm : (k, v) ∈ r) : alook r k = some v := by
  induction r with
  | nil => simp at hm
  | cons p r ih =>
    obtain ⟨kp, vp⟩ := p
    simp only [List.map_cons, List.nodup_cons] at h
    rcases List.mem_cons.1 hm with heq | hmem
    · injection heq with h1 h2
      subst h1
      subst h2
      simp [alook, List.find?_cons]
    · have hkp : kp ≠ k := by
        intro he
        subst he
        exact h.1 (List.mem_map.2 ⟨(kp, v), hmem, rfl⟩)
      have : ((kp, vp).1 == k) = false := by simp [hkp]
      simp only [alook, List.find?_cons, this, Bool.false_eq_true, if_false]
      exact ih h.2 hmem

theorem mem_of_alook {r : Alist β} {k : String} {v : β}
    (h : alook r k = some v) : (k, v) ∈ r := by
  induction r with
  | nil => simp [alook] at h
  | cons p r ih =>
    obtain ⟨kp, vp⟩ := p
    by_cases hkp : (kp == k) = true
    · simp only [alook, List.find?_cons, hkp, if_true, Option.map_some,
        Option.some.injEq] at h
      simp at hkp
      subst hkp
      cases h
      exact List.mem_cons_self _ _
    · simp only [alook, List.find?_cons, hkp, Bool.false_eq_true, if_false] at h
      exact List.mem_cons_of_mem _ (ih h)

theorem foldl_flatMap (f : γ → β → γ) (g : α → List β) :
    ∀ (l : List α) (init : γ),
      (l.flatMap g).foldl f init = l.foldl (fun acc x => (g x).foldl f acc) init
  | [], _ => rfl
  | x :: xs, init => by
    rw [List.flatMap_cons, List.foldl_append, List.foldl_cons]
    exact foldl_flatMap f g xs _

/-! ## C8: default co-run rule generation -/

theorem alook_upsert (r : Alist β) (k : String) (v : β) (k' : String) :
    alook (upsert r k v) k' = if k' = k then some v else alook r k' := by
  unfold upsert
  by_cases hp : (r.find? fun p => p.1 == k).isSome
  · rw [if_pos hp, alook_map_replace k v k' r]
    by_cases hk' : k' = k
    · rw [if_pos hk', if_pos hk']
      obtain ⟨q, hq⟩ := Option.isSome_iff_exists.1 hp
      have hh : alook r k = some q.2 := by
        unfold alook
        rw [hq]
        rfl
      rw [hh]
      rfl
    · rw [if_neg hk', if_neg hk']
  · rw [if_neg hp]
    have hnone : (r.find? fun p => p.1 == k) = none :=
      Option.not_isSome_iff_eq_none.1 hp
    unfold alook
    rw [List.find?_append]
    by_cases hk' : k' = k
    · subst hk'
      rw [hnone]
      simp [List.find?]
    · have hone : (([(k, v)] : Alist β).find? fun p => p.1 == k') = none := by
        have hkk : (k == k') = false := by
          simpa using Ne.symm hk'
        simp [List.find?, hkk]
      rw [hone, if_neg hk']
      cases r.find? fun p => p.1 == k' <;> rfl

theorem alook_pushAt (r : Alist (List String)) (k : String) (v : String) (k' : String) :
    alook (pushAt r k v) k'
      = if k' = k then some ((alook r k).getD [] ++ [v]) else alook r k' := by
  unfold pushAt
  exact alook_upsert r k _ k'

theorem valOf_foldl_pushAt :
    ∀ (es : List (String × String)) (r : Alist (List String)) (k : String),
      (alook (es.foldl (fun r e => pushAt r e.1 e.2) r) k).getD []
        = (alook r k).getD [] ++ (es.filter (·.1 == k)).map (·.2)
  | [], _, _ => by simp
  | e :: es, r, k => by
    rw [List.foldl_cons, valOf_foldl_pushAt es _ k, List.filter_cons]
    by_cases hk : (e.1 == k) = true
    · have hk' : k = e.1 := by
        have := hk
        simp at this
        exact this.symm
      rw [alook_pushAt, if_pos hk']
      simp [hk, ← hk']
    · rw [alook_pushAt, if_neg (by
        intro h
        simp [h] at hk)]
      simp [hk]

theorem pres_foldl_pushAt :
    ∀ (es : List (String × String)) (r : Alist (List String)) (k : String),
      (alook (es.foldl (fun r e => pushAt r e.1 e.2) r) k).isSome
        = ((alook r k).isSome || es.any (·.1 == k))
  | [], _, _ => by simp
  | e :: es, r, k => by
    rw [List.foldl_cons, pres_foldl_pushAt es _ k, List.any_cons]
    by_cases hk : (e.1 == k) = true
    · have hk' : k = e.1 := by
        have := hk
        simp at this
        exact this.symm
      rw [alook_pushAt, if_pos hk']
      simp [hk]
    · rw [alook_pushAt, if_neg (by
        intro h
        simp [h] at hk)]
      simp [hk]

theorem keys_nodup_foldl_pushAt :
    ∀ (es : List (String × String)) (r : Alist (List String)),
      (r.map Prod.fst).Nodup →
      ((es.foldl (fun r e => pushAt r e.1 e.2) r).map Prod.fst).Nodup
  | [], _, h => h
  | e :: es, r, h => by
    rw [List.foldl_cons]
    exact keys_nodup_foldl_pushAt es _ (keys_nodup_upsert r e.1 _ h)

theorem clientTaskPairs_eq_fold (clients : List Client) :
    clientTaskPairs clients
      = (pairStream clients).foldl (fun r e => pushAt r e.1 e.2) [] := by
  unfold clientTaskPairs pairStream
  rw [foldl_flatMap]
  have hfun : (fun (a : Alist (List String)) (c : Client) =>
      if c.RequestedTaskIDs ≠ "" then
        (pairKeys (splitTrim c.RequestedTaskIDs)).foldl
          (fun a k => pushAt a k c.ClientID) a
      else a)
      = fun (acc : Alist (List String)) (c : Client) =>
        ((if c.RequestedTaskIDs ≠ "" then
            (pairKeys (splitTrim c.RequestedTaskIDs)).map fun k => (k, c.ClientID)
          else []).foldl (fun r e => pushAt r e.1 e.2) acc) := by
    funext acc c
    by_cases hc : c.RequestedTaskIDs ≠ ""
    · rw [if_pos hc, if_pos hc, List.foldl_map]
    · rw [if_neg hc, if_neg hc]
      rfl
  rw [hfun]

theorem pairStream_keys (clients : List Client) :
    (pairStream clients).map Prod.fst = allPairKeys clients := by
  unfold pairStream allPairKeys
  rw [List.map_flatMap]
  refine flatMap_congr_fun clients _ _ fun c => ?_
  by_cases hc : c.RequestedTaskIDs ≠ ""
  · rw [if_pos hc, if_pos hc, List.map_map]
    have hcomp : (Prod.fst ∘ fun k : String => (k, c.ClientID)) = id := rfl
    rw [hcomp, List.map_id]
  · rw [if_neg hc, if_neg hc]
    rfl

theorem splitComma_go_ne_nil : ∀ (cs acc : List Char), splitComma.go cs acc ≠ []
  | [], acc => by
    rw [show splitComma.go [] acc = [⟨acc.reverse⟩] from rfl]
    simp
  | c :: cs, acc => by
    unfold splitComma.go
    by_cases hc : c = ','
    · simp [hc]
    · rw [if_neg hc]
      exact splitComma_go_ne_nil cs _

theorem joinComma_go : ∀ (cs acc : List Char),
    joinComma (splitComma.go cs acc) = ⟨acc.reverse ++ cs⟩
  | [], acc => by
    rw [show splitComma.go [] acc = [⟨acc.reverse⟩] from rfl]
    show (⟨acc.reverse⟩ : String) = ⟨acc.reverse ++ []⟩
    simp
  | c :: cs, acc => by
    unfold splitComma.go
    by_cases hc : c = ','
    · rw [if_pos hc]
      obtain ⟨y, l, hl⟩ := List.exists_cons_of_ne_nil (splitComma_go_ne_nil cs [])
      rw [hl]
      show (⟨acc.reverse⟩ : String) ++ "," ++ joinComma (y :: l) = _
      rw [← hl, joinComma_go cs []]
      refine congrArg String.mk ?_
      simp [hc]
    · rw [if_neg hc, joinComma_go cs (c :: acc)]
      refine congrArg String.mk ?_
      simp

theorem joinComma_splitComma (s : String) : joinComma (splitComma s) = s := by
  unfold splitComma
  rw [joinComma_go]
  cases s
  simp

theorem splitComma_injective : Function.Injective splitComma := by
  intro a b h
  rw [← joinComma_splitComma a, ← joinComma_splitComma b, h]

theorem foldl_append_conditional (P : α → Prop) [DecidablePred P] (f : Nat → α → β) :
    ∀ (L : List α) (init : List β),
      L.foldl (fun rs x => if P x then rs ++ [f rs.length x] else rs) init
        = init ++ (L.filter fun x => decide (P x)).mapIdx fun i x => f (init.length + i) x
  | [], init => by simp
  | x :: xs, init => by
    rw [List.foldl_cons, List.filter_cons]
    by_cases hx : P x
    · rw [if_pos hx, foldl_append_conditional P f xs (init ++ [f init.length x]),
          if_pos (decide_eq_true hx), List.mapIdx_cons, List.append_assoc,
          List.singleton_append]
      refine congrArg (fun l => init ++ l) ?_
      refine congrArg₂ List.cons (by rw [Nat.add_zero]) ?_
      show List.mapIdx (fun i y => f ((init ++ [f init.length x]).length + i) y) _
        = List.mapIdx (fun i y => f (init.length + (i + 1)) y) _
      refine congrArg (fun g => List.mapIdx g (xs.filter fun y => decide (P y))) ?_
      funext i y
      have hl : (init ++ [f init.length x]).length + i = init.length + (i + 1) := by
        simp
        omega
      rw [hl]
    · rw [if_neg hx, foldl_append_conditional P f xs init,
          if_neg (by simp [hx])]

theorem generateDefaultRules_eq (now : Nat) (clients : List Client)
    (workers : List Worker) (tasks : List Task) :
    generateDefaultRules now clients workers tasks
      = ((clientTaskPairs clients).filter fun p => decide (3 ≤ p.2.length)).mapIdx
          (fun i p => mkCoRunRule now i p.1 p.2.length)
        ++ ((workerGroupCounts workers).filter fun p => decide (5 < p.2)).mapIdx
          (fun i p => mkLoadLimitRule now
            (((clientTaskPairs clients).filter fun p => decide (3 ≤ p.2.length)).length + i)
            p.1 p.2) := by
  have h1 : generateDefaultRules now clients workers tasks
      = (workerGroupCounts workers).foldl
          (fun rules p =>
            if 5 < p.2 then rules ++ [mkLoadLimitRule now rules.length p.1 p.2] else rules)
          ((clientTaskPairs clients).foldl
            (fun rules p =>
              if 3 ≤ p.2.length then
                rules ++ [mkCoRunRule now rules.length p.1 p.2.length]
              else rules)
            []) := rfl
  have e1 := foldl_append_conditional (α := String × List String)
    (fun p => 3 ≤ p.2.length) (fun i p => mkCoRunRule now i p.1 p.2.length)
    (clientTaskPairs clients) []
  have e2 := foldl_append_conditional (α := String × Nat)
    (fun p => 5 < p.2) (fun i p => mkLoadLimitRule now i p.1 p.2)
    (workerGroupCounts workers)
  rw [h1, e1, e2]
  simp only [List.nil_append, List.length_nil, Nat.zero_add, List.length_mapIdx]

theorem count_allPairKeys (clients : List Client) (key : String) :
    (allPairKeys clients).count key
      = (pairStream clients).countP (fun e => e.1 == key) := by
  rw [← pairStream_keys]
  show ((pairStream clients).map Prod.fst).countP (fun x => x == key) = _
  rw [List.countP_map]
  rfl

theorem clientTaskPairs_value (clients : List Client) (key : String) (l : List String)
    (hm : (key, l) ∈ clientTaskPairs clients) :
    l = ((pairStream clients).filter (·.1 == key)).map (·.2) := by
  have hnd : ((clientTaskPairs clients).map Prod.fst).Nodup := by
    rw [clientTaskPairs_eq_fold]
    exact keys_nodup_foldl_pushAt (pairStream clients) [] (by simp)
  have hlook : alook (clientTaskPairs clients) key = some l :=
    alook_of_mem_nodup hnd hm
  have hval := valOf_foldl_pushAt (pairStream clients) [] key
  rw [← clientTaskPairs_eq_fold, hlook] at hval
  simpa [alook] using hval

theorem clientTaskPairs_length (clients : List Client) (key : String) (l : List String)
    (hm : (key, l) ∈ clientTaskPairs clients) :
    l.length = (allPairKeys clients).count key := by
  rw [clientTaskPairs_value clients key l hm, List.length_map,
      ← List.countP_eq_length_filter, count_allPairKeys]

/-- C8 counterexample: a single client whose requested-task list repeats the
pair `T1`,`T2` four times already yields a proposed co-run rule, although only
one (distinct) client requests the pair. -/
theorem co_run_single_client_cex :
    ((generateDefaultRules 0
        [⟨"C1", "C", 1, "T1,T2,T1,T2", "", .undef⟩] [] []).map
      fun r => (r.type, r.parameters))
      = [("coRun", .coRunP ["T1", "T2"])] := by decide

/-- C8 (amended): a co-run rule is proposed for a pair key exactly when the
key has at least 3 occurrences among the per-index-pair keys of all clients
(a client with repeated task ids contributes several occurrences); the rules
of type `coRun` are exactly one rule per such key, in table order, with the
pair's two ids as parameters. -/
theorem co_run_pair_occurrences (now : Nat) (clients : List Client)
    (workers : List Worker) (tasks : List Task) :
    ((generateDefaultRules now clients workers tasks).filter
        fun r => r.type == "coRun")
      = ((clientTaskPairs clients).filter fun p => decide (3 ≤ p.2.length)).mapIdx
          (fun i p => mkCoRunRule now i p.1 p.2.length)
    ∧ (∀ (key : String) (l : List String), (key, l) ∈ clientTaskPairs clients →
        l.length = (allPairKeys clients).count key)
    ∧ (∀ key : String,
        (∃ r ∈ generateDefaultRules now clients workers tasks,
            r.type = "coRun" ∧ r.parameters = .coRunP (splitComma key))
          ↔ 3 ≤ (allPairKeys clients).count key) := by
  have hsplit := generateDefaultRules_eq now clients workers tasks
  refine ⟨?_, fun key l hm => clientTaskPairs_length clients key l hm, ?_⟩
  · rw [hsplit, List.filter_append]
    have hco : (((clientTaskPairs clients).filter
          fun p => decide (3 ≤ p.2.length)).mapIdx
            (fun i p => mkCoRunRule now i p.1 p.2.length)).filter
          (fun r => r.type == "coRun")
        = ((clientTaskPairs clients).filter fun p => decide (3 ≤ p.2.length)).mapIdx
            (fun i p => mkCoRunRule now i p.1 p.2.length) := by
      refine List.filter_eq_self.2 fun r hr => ?_
      obtain ⟨i, hi, hget⟩ := List.mem_iff_getElem.1 hr
      rw [List.getElem_mapIdx] at hget
      rw [← hget]
      rfl
    have hload : (((workerGroupCounts workers).filter fun p => decide (5 < p.2)).mapIdx
          (fun i p => mkLoadLimitRule now
            (((clientTaskPairs clients).filter fun p => decide (3 ≤ p.2.length)).length + i)
            p.1 p.2)).filter (fun r => r.type == "coRun") = [] := by
      refine List.filter_eq_nil_iff.2 fun r hr => ?_
      obtain ⟨i, hi, hget⟩ := List.mem_iff_getElem.1 hr
      rw [List.getElem_mapIdx] at hget
      rw [← hget]
      show ¬(("loadLimit" : String) == "coRun") = true
      decide
    rw [hco, hload, List.append_nil]
  · intro key
    constructor
    · rintro ⟨r, hr, htype, hparam⟩
      rw [hsplit] at hr
      rcases List.mem_append.1 hr with hrc | hrl
      · obtain ⟨i, hi, hget⟩ := List.mem_iff_getElem.1 hrc
        rw [List.getElem_mapIdx] at hget
        rw [List.length_mapIdx] at hi
        have hpm := List.mem_filter.1 (List.getElem_mem hi)
        have hparam2 : r.parameters
            = .coRunP (splitComma (((clientTaskPairs clients).filter
                fun p => decide (3 ≤ p.2.length))[i].1)) := by
          rw [← hget]
          rfl
        rw [hparam] at hparam2
        have hkeys : splitComma key
            = splitComma (((clientTaskPairs clients).filter
                fun p => decide (3 ≤ p.2.length))[i].1) := by
          injection hparam2
        have hkey : key = ((clientTaskPairs clients).filter
            fun p => decide (3 ≤ p.2.length))[i].1 := splitComma_injective hkeys
        have hge : 3 ≤ (((clientTaskPairs clients).filter
            fun p => decide (3 ≤ p.2.length))[i]).2.length := of_decide_eq_true hpm.2
        have hmem2 : (key, (((clientTaskPairs clients).filter
            fun p => decide (3 ≤ p.2.length))[i]).2) ∈ clientTaskPairs clients := by
          rw [hkey]
          exact hpm.1
        have := clientTaskPairs_length clients key _ hmem2
        omega
      · obtain ⟨i, hi, hget⟩ := List.mem_iff_getElem.1 hrl
        rw [List.getElem_mapIdx] at hget
        have htype2 : r.type = "loadLimit" := by
          rw [← hget]
          rfl
        rw [htype] at htype2
        exact absurd htype2 (by decide)
    · intro h3
      have hpos : 0 < (pairStream clients).countP (fun e => e.1 == key) := by
        rw [← count_allPairKeys]
        omega
      obtain ⟨e, he, hek⟩ := List.countP_pos_iff.1 hpos
      have hsome : (alook (clientTaskPairs clients) key).isSome := by
        rw [clientTaskPairs_eq_fold, pres_foldl_pushAt]
        have hany : (pairStream clients).any (·.1 == key) = true :=
          List.any_eq_true.2 ⟨e, he, hek⟩
        simp [alook, hany]
      obtain ⟨l, hl⟩ := Option.isSome_iff_exists.1 hsome
      have hm : (key, l) ∈ clientTaskPairs clients := mem_of_alook hl
      have hlen : 3 ≤ l.length := by
        rw [clientTaskPairs_length clients key l hm]
        exact h3
      have hf : (key, l) ∈ (clientTaskPairs clients).filter
          fun p => decide (3 ≤ p.2.length) :=
        List.mem_filter.2 ⟨hm, decide_eq_true hlen⟩
      obtain ⟨i, hi, hget⟩ := List.mem_iff_getElem.1 hf
      have hi' : i < (((clientTaskPairs clients).filter
          fun p => decide (3 ≤ p.2.length)).mapIdx
            (fun i p => mkCoRunRule now i p.1 p.2.length)).length := by
        rw [List.length_mapIdx]
        exact hi
      refine ⟨mkCoRunRule now i key l.length, ?_, rfl, rfl⟩
      rw [hsplit]
      refine List.mem_append_left _ ?_
      have hcget : (((clientTaskPairs clients).filter
          fun p => decide (3 ≤ p.2.length)).mapIdx
            (fun i p => mkCoRunRule now i p.1 p.2.length))[i]
          = mkCoRunRule now i key l.length := by
        rw [List.getElem_mapIdx, hget]
      exact hcget ▸ List.getElem_mem hi'

/-! ## C7: phase-slot saturation -/

theorem digitChar_inj_lt : ∀ d1 : ℕ, d1 < 10 → ∀ d2 : ℕ, d2 < 10 →
    Nat.digitChar d1 = Nat.digitChar d2 → d1 = d2 := by decide

theorem digitVal?_digitChar : ∀ d : ℕ, d < 10 →
    digitVal? (Nat.digitChar d) = some d := by decide

theorem isJsWs_digitChar : ∀ d : ℕ, d < 10 →
    isJsWs (Nat.digitChar d) = false := by decide

theorem digitChar_not_sign : ∀ d : ℕ, d < 10 →
    Nat.digitChar d ≠ '-' ∧ Nat.digitChar d ≠ '+' := by decide

theorem takeDigits_map_digitChar : ∀ (l : List ℕ), (∀ d ∈ l, d < 10) →
    takeDigits digitVal? (l.map Nat.digitChar) = (l, [])
  | [], _ => rfl
  | d :: l, h => by
    simp only [List.map_cons]
    unfold takeDigits
    rw [digitVal?_digitChar d (h d (by simp))]
    rw [takeDigits_map_digitChar l (fun x hx => h x (by simp [hx]))]

theorem takeSign_no_sign (l : List Char)
    (h : ∀ c, l.head? = some c → c ≠ '-' ∧ c ≠ '+') : takeSign l = (1, l) := by
  unfold takeSign
  split
  · exact absurd rfl (h '-' rfl).1
  · exact absurd rfl (h '+' rfl).2
  · rfl

theorem foldl_digits : ∀ (l : List ℕ) (a : ℕ),
    l.foldl (fun a d => a * 10 + d) a = a * 10 ^ l.length + Nat.ofDigits 10 l.reverse
  | [], a => by simp [Nat.ofDigits]
  | d :: t, a => by
    rw [List.foldl_cons, foldl_digits t (a * 10 + d), List.reverse_cons,
      Nat.ofDigits_append]
    simp [Nat.ofDigits, List.length_reverse]
    ring

theorem natToString_data (n : ℕ) (hn : n ≠ 0) :
    (natToString n).data = ((Nat.digits 10 n).map Nat.digitChar).reverse := by
  unfold natToString
  rw [if_neg hn, natDigitsRev_eq_digits n n le_rfl]

theorem parseIntJS_natToString (p : ℕ) : parseIntJS (natToString p) = some (p : ℤ) := by
  by_cases hp : p = 0
  · subst hp
    decide
  · have hdigits_lt : ∀ d ∈ Nat.digits 10 p, d < 10 :=
      fun d hd => Nat.digits_lt_base (by norm_num) hd
    have hLlt : ∀ d ∈ (Nat.digits 10 p).reverse, d < 10 :=
      fun d hd => hdigits_lt d (by simpa using hd)
    have hdata : (natToString p).data = (Nat.digits 10 p).reverse.map Nat.digitChar := by
      rw [natToString_data p hp, List.map_reverse]
    obtain ⟨d0, L', hL'⟩ : ∃ d0 L', (Nat.digits 10 p).reverse = d0 :: L' := by
      cases hc : (Nat.digits 10 p).reverse with
      | nil =>
        exfalso
        have : Nat.digits 10 p = [] := by simpa using congrArg List.reverse hc
        exact Nat.digits_ne_nil_iff_ne_zero.2 hp this
      | cons a t => exact ⟨a, t, rfl⟩
    have hd0lt : d0 < 10 := hLlt d0 (by rw [hL']; simp)
    have hd0ne : d0 ≠ 0 := by
      have hne : Nat.digits 10 p ≠ [] := Nat.digits_ne_nil_iff_ne_zero.2 hp
      have h1 : (Nat.digits 10 p).getLast? = some d0 := by
        rw [← List.head?_reverse, hL']
        rfl
      have h2 := Nat.getLast_digit_ne_zero 10 hp
      have h3 := List.getLast?_eq_getLast (Nat.digits 10 p) hne
      rw [h1] at h3
      injection h3 with h4
      rw [h4]
      exact h2
    have hL'lt : ∀ d ∈ d0 :: L', d < 10 := by
      rw [← hL']
      exact hLlt
    have hdata' : (natToString p).data = Nat.digitChar d0 :: L'.map Nat.digitChar := by
      rw [hdata, hL']
      rfl
    unfold parseIntJS
    rw [hdata', List.dropWhile_cons, isJsWs_digitChar d0 hd0lt]
    simp only [Bool.false_eq_true, if_false]
    rw [takeSign_no_sign _ (by
      intro c hc
      injection hc with hc2
      rw [← hc2]
      exact digitChar_not_sign d0 hd0lt)]
    split
    · rename_i t heq
      exfalso
      have hchar : Nat.digitChar d0 = '0' := by
        injection heq
      exact hd0ne (digitChar_inj_lt d0 hd0lt 0 (by norm_num) hchar)
    · rename_i heq1
      rw [show Nat.digitChar d0 :: L'.map Nat.digitChar
            = (d0 :: L').map Nat.digitChar from rfl,
        takeDigits_map_digitChar _ hL'lt]
      rw [if_neg (by simp)]
      have hval : digitsToNat 10 (d0 :: L') = p := by
        unfold digitsToNat
        rw [foldl_digits, ← hL', List.reverse_reverse, Nat.ofDigits_digits]
        simp
      rw [hval]
      simp

theorem natToString_injective : Function.Injective natToString := by
  intro a b h
  have ha := parseIntJS_natToString a
  rw [h, parseIntJS_natToString b] at ha
  injection ha with h2
  exact_mod_cast h2.symm

theorem natToString_beq (a b : ℕ) :
    (natToString a == natToString b) = (a == b) := by
  by_cases hab : a = b
  · rw [hab]
    simp
  · have : natToString a ≠ natToString b := fun he => hab (natToString_injective he)
    simp [this, hab]

theorem keyViaParseInt_natToString (p : ℕ) :
    keyViaParseInt (natToString p) = natToString p := by
  unfold keyViaParseInt
  rw [parseIntJS_natToString]
  show intToString (p : ℤ) = natToString p
  unfold intToString
  rw [if_neg (by exact_mod_cast Int.not_lt.2 (Int.natCast_nonneg p)), Int.toNat_natCast]

theorem qToString_natCast (p : ℕ) : qToString ((p : ℕ) : ℚ) = natToString p := by
  by_cases hp : p = 0
  · subst hp
    show qToString ((0 : ℕ) : ℚ) = _
    rw [show ((0 : ℕ) : ℚ) = 0 from by norm_num]
    decide
  · unfold qToString
    rw [if_neg (by exact_mod_cast hp)]
    have hneg : ¬((p : ℚ) < 0) := not_lt.2 (by positivity)
    rw [if_neg hneg]
    simp only [Rat.num_natCast, Rat.den_natCast, Int.natAbs_ofNat]
    rw [show (List.range (1 + 1)).find? (fun k => decide (1 ∣ 10 ^ k)) = some 0 from by decide]
    show ("" : String) ++ natToString (p * 10 ^ 0 / 1) = natToString p
    rw [pow_zero, mul_one, Nat.div_one]
    rfl

theorem jsonKey_natCast (p : ℕ) : jsonKey (.num ((p : ℕ) : ℚ)) = natToString p := by
  show qToString ((p : ℕ) : ℚ) = natToString p
  exact qToString_natCast p

theorem isNumVal_natCast (q p : ℕ) :
    isNumVal (.num ((q : ℕ) : ℚ)) p = (q == p) := by
  show (((q : ℕ) : ℚ) == ((p : ℕ) : ℚ)) = (q == p)
  by_cases hqp : q = p
  · rw [hqp]
    simp
  · have : ((q : ℕ) : ℚ) ≠ ((p : ℕ) : ℚ) := by exact_mod_cast hqp
    simp [this, hqp]

theorem alook_radd (r : NumRec) (k : String) (x : ℚ) (k' : String) :
    alook (radd r k x) k'
      = if k' = k then some ((alook r k).getD 0 + x) else alook r k' := by
  unfold radd
  exact alook_upsert r k _ k'

theorem valOf_foldl_radd :
    ∀ (es : List (String × ℚ)) (r : NumRec) (k : String),
      (alook (es.foldl (fun r e => radd r e.1 e.2) r) k).getD 0
        = (alook r k).getD 0 + ((es.filter (·.1 == k)).map (·.2)).sum
  | [], _, _ => by simp
  | e :: es, r, k => by
    rw [List.foldl_cons, valOf_foldl_radd es _ k, List.filter_cons]
    by_cases hk : (e.1 == k) = true
    · have hk' : k = e.1 := by
        have := hk
        simp at this
        exact this.symm
      rw [alook_radd, if_pos hk']
      simp [hk, ← hk']
      ring
    · rw [alook_radd, if_neg (by
        intro h
        simp [h] at hk)]
      simp [hk]

theorem pres_foldl_radd :
    ∀ (es : List (String × ℚ)) (r : NumRec) (k : String),
      (alook (es.foldl (fun r e => radd r e.1 e.2) r) k).isSome
        = ((alook r k).isSome || es.any (·.1 == k))
  | [], _, _ => by simp
  | e :: es, r, k => by
    rw [List.foldl_cons, pres_foldl_radd es _ k, List.any_cons]
    by_cases hk : (e.1 == k) = true
    · have hk' : k = e.1 := by
        have := hk
        simp at this
        exact this.symm
      rw [alook_radd, if_pos hk']
      simp [hk]
    · rw [alook_radd, if_neg (by
        intro h
        simp [h] at hk)]
      simp [hk]

theorem keys_nodup_foldl_radd :
    ∀ (es : List (String × ℚ)) (r : NumRec),
      (r.map Prod.fst).Nodup →
      ((es.foldl (fun r e => radd r e.1 e.2) r).map Prod.fst).Nodup
  | [], _, h => h
  | e :: es, r, h => by
    rw [List.foldl_cons]
    exact keys_nodup_foldl_radd es _ (keys_nodup_upsert r e.1 _ h)

theorem mem_keys_iff_alook (r : Alist β) (k : String) :
    k ∈ r.map Prod.fst ↔ (alook r k).isSome := by
  constructor
  · intro hm
    obtain ⟨e, he, hek⟩ := List.mem_map.1 hm
    have : (r.find? fun p => p.1 == k).isSome :=
      List.find?_isSome.2 ⟨e, he, by simp [hek]⟩
    unfold alook
    cases hf : r.find? fun p => p.1 == k
    · rw [hf] at this
      simp at this
    · simp
  · intro hs
    unfold alook at hs
    cases hf : r.find? fun p => p.1 == k with
    | none => rw [hf] at hs; simp at hs
    | some e =>
      have hmem := List.mem_of_find?_eq_some hf
      have hpk := List.find?_some hf
      refine List.mem_map.2 ⟨e, hmem, ?_⟩
      simpa using hpk

theorem phaseWorkerSlots_eq_fold (workers : List Worker) :
    phaseWorkerSlots workers
      = (capStream workers).foldl (fun r e => radd r e.1 e.2) [] := by
  unfold phaseWorkerSlots capStream
  rw [foldl_flatMap]
  have hfun : (fun (a : NumRec) (w : Worker) =>
      (workerParsedSlots w).foldl
        (fun a s => radd a (jsonKey s) (w.MaxLoadPerPhase : ℚ)) a)
      = fun (acc : NumRec) (w : Worker) =>
        (((workerParsedSlots w).map fun s =>
          (jsonKey s, (w.MaxLoadPerPhase : ℚ))).foldl (fun r e => radd r e.1 e.2) acc) := by
    funext acc w
    rw [List.foldl_map]
  rw [hfun]

theorem taskPhaseContrib_stream (capKeys : List String) (acc : NumRec) (t : Task) :
    taskPhaseContrib capKeys acc t
      = (if t.PreferredPhases = "" then
           capKeys.map fun k => (keyViaParseInt k, t.Duration)
         else
           match jsonParse t.PreferredPhases with
           | none => []
           | some (.arr []) => capKeys.map fun k => (keyViaParseInt k, t.Duration)
           | some (.arr ps) => ps.map fun x => (jsonKey x, t.Duration)
           | some (.str "") => capKeys.map fun k => (keyViaParseInt k, t.Duration)
           | some _ => []).foldl (fun r e => radd r e.1 e.2) acc := by
  unfold taskPhaseContrib
  by_cases hP : t.PreferredPhases = ""
  · rw [if_pos hP, if_pos hP, List.foldl_map]
  · rw [if_neg hP, if_neg hP]
    cases hj : jsonParse t.PreferredPhases with
    | none => rfl
    | some j =>
      cases j with
      | null => rfl
      | bool b => rfl
      | num q => rfl
      | obj ms => rfl
      | arr ps =>
        cases ps with
        | nil => rw [List.foldl_map]
        | cons x xs => rw [List.foldl_map]
      | str s =>
        split <;>
          first
          | rfl
          | rw [List.foldl_map]

theorem sum_flatMap (g : α → List ℚ) : ∀ (l : List α),
    (l.flatMap g).sum = (l.map fun x => (g x).sum).sum
  | [] => rfl
  | x :: xs => by
    rw [List.flatMap_cons, List.sum_append, List.map_cons, List.sum_cons,
      sum_flatMap g xs]

theorem any_map' (f : α → β) (p : β → Bool) : ∀ l : List α,
    (l.map f).any p = l.any fun x => p (f x)
  | [] => rfl
  | x :: xs => by
    rw [List.map_cons, List.any_cons, List.any_cons, any_map' f p xs]

theorem sum_map_snd_filter_key (key : String) (c : ℚ) :
    ∀ (l : List (String × ℚ)), (∀ e ∈ l, e.2 = c) →
      ((l.filter (·.1 == key)).map (·.2)).sum
        = ((l.countP (·.1 == key) : ℕ) : ℚ) * c
  | [], _ => by simp
  | e :: l, h => by
    rw [List.filter_cons, List.countP_cons]
    have hrest := sum_map_snd_filter_key key c l (fun x hx => h x (List.mem_cons_of_mem _ hx))
    by_cases hk : (e.1 == key) = true
    · simp only [hk, if_true, List.map_cons, List.sum_cons]
      rw [hrest, h e (List.mem_cons_self _ _)]
      push_cast
      ring
    · simp only [hk, Bool.false_eq_true, if_false]
      rw [hrest]
      simp

theorem countP_beq_nodup : ∀ (l : List String), l.Nodup → ∀ a : String,
    l.countP (· == a) = if a ∈ l then 1 else 0
  | [], _, a => by simp
  | x :: xs, h, a => by
    simp only [List.nodup_cons] at h
    rw [List.countP_cons, countP_beq_nodup xs h.2 a]
    by_cases hxa : x = a
    · subst hxa
      simp [h.1]
    · simp [hxa, Ne.symm hxa]

theorem usage_eq_fold (capKeys : List String) (tasks : List Task) :
    tasks.foldl (taskPhaseContrib capKeys) []
      = (demandStream capKeys tasks).foldl (fun r e => radd r e.1 e.2) [] := by
  unfold demandStream
  rw [foldl_flatMap]
  have hfun : taskPhaseContrib capKeys
      = fun (acc : NumRec) (t : Task) =>
        ((if t.PreferredPhases = "" then
            capKeys.map fun k => (keyViaParseInt k, t.Duration)
          else
            match jsonParse t.PreferredPhases with
            | none => []
            | some (.arr []) => capKeys.map fun k => (keyViaParseInt k, t.Duration)
            | some (.arr ps) => ps.map fun x => (jsonKey x, t.Duration)
            | some (.str "") => capKeys.map fun k => (keyViaParseInt k, t.Duration)
            | some _ => []).foldl (fun r e => radd r e.1 e.2) acc) := by
    funext acc t
    exact taskPhaseContrib_stream capKeys acc t
  rw [hfun]

theorem capacity_value (workers : List Worker)
    (HW : ∀ w ∈ workers, ∀ s ∈ workerParsedSlots w, ∃ q : ℕ, s = Json.num ((q : ℕ) : ℚ))
    (p : ℕ) :
    (alook (phaseWorkerSlots workers) (natToString p)).getD 0 = specCapacity workers p := by
  rw [phaseWorkerSlots_eq_fold, valOf_foldl_radd]
  rw [show (alook ([] : NumRec) (natToString p)) = none from rfl]
  rw [Option.getD_none, zero_add]
  unfold capStream specCapacity
  rw [List.filter_flatMap, List.map_flatMap, sum_flatMap]
  refine congrArg List.sum (List.map_congr_left fun w hw => ?_)
  show ((((workerParsedSlots w).map fun s => (jsonKey s, (w.MaxLoadPerPhase : ℚ))).filter
      (·.1 == natToString p)).map (·.2)).sum = _
  rw [sum_map_snd_filter_key (natToString p) (w.MaxLoadPerPhase : ℚ) _
      (by
        intro e he
        obtain ⟨s, _, rfl⟩ := List.mem_map.1 he
        rfl),
    List.countP_map]
  have hcnt : (workerParsedSlots w).countP
      ((fun e : String × ℚ => e.1 == natToString p) ∘ fun s => (jsonKey s, (w.MaxLoadPerPhase : ℚ)))
      = (workerParsedSlots w).countP fun s => isNumVal s p := by
    refine List.countP_congr fun s hs => ?_
    obtain ⟨q, rfl⟩ := HW w hw s hs
    show (jsonKey (Json.num ((q : ℕ) : ℚ)) == natToString p) = true ↔ _
    rw [jsonKey_natCast, natToString_beq, isNumVal_natCast]
  rw [hcnt]

theorem capKeys_mem (workers : List Worker)
    (HW : ∀ w ∈ workers, ∀ s ∈ workerParsedSlots w, ∃ q : ℕ, s = Json.num ((q : ℕ) : ℚ))
    (k : String) :
    k ∈ (phaseWorkerSlots workers).map Prod.fst
      ↔ ∃ q : ℕ, k = natToString q ∧ phaseHasCapacity workers q = true := by
  rw [mem_keys_iff_alook, phaseWorkerSlots_eq_fold, pres_foldl_radd]
  rw [show (alook ([] : NumRec) k) = none from rfl]
  simp only [Option.isSome_none, Bool.false_or]
  unfold capStream
  rw [List.any_flatMap]
  constructor
  · intro h
    obtain ⟨w, hw, hw2⟩ := List.any_eq_true.1 h
    rw [any_map'] at hw2
    obtain ⟨s, hs, hek⟩ := List.any_eq_true.1 hw2
    obtain ⟨q, rfl⟩ := HW w hw s hs
    have hek2 : (jsonKey (Json.num ((q : ℕ) : ℚ)) == k) = true := hek
    rw [jsonKey_natCast] at hek2
    refine ⟨q, ?_, ?_⟩
    · exact (eq_of_beq hek2).symm
    · refine List.any_eq_true.2 ⟨w, hw, List.any_eq_true.2 ⟨Json.num ((q : ℕ) : ℚ), hs, ?_⟩⟩
      rw [isNumVal_natCast]
      simp
  · rintro ⟨q, rfl, hcap⟩
    obtain ⟨w, hw, hs'⟩ := List.any_eq_true.1 hcap
    obtain ⟨s, hs, hnum⟩ := List.any_eq_true.1 hs'
    refine List.any_eq_true.2 ⟨w, hw, ?_⟩
    rw [any_map']
    refine List.any_eq_true.2 ⟨s, hs, ?_⟩
    obtain ⟨q', rfl⟩ := HW w hw s hs
    rw [isNumVal_natCast] at hnum
    show (jsonKey (Json.num ((q' : ℕ) : ℚ)) == natToString q) = true
    rw [jsonKey_natCast, natToString_beq]
    exact hnum

theorem any_congr' (p q : α → Bool) : ∀ l : List α, (∀ x ∈ l, p x = q x) →
    l.any p = l.any q
  | [], _ => rfl
  | x :: xs, h => by
    rw [List.any_cons, List.any_cons, h x (by simp),
      any_congr' p q xs fun y hy => h y (by simp [hy])]

theorem any_beq' (l : List String) (a : String) : (l.any (· == a) = true) ↔ a ∈ l := by
  rw [List.any_eq_true]
  constructor
  · rintro ⟨x, hx, hxa⟩
    exact (eq_of_beq hxa) ▸ hx
  · intro h
    exact ⟨a, h, by simp⟩

theorem keys_nodup_phaseWorkerSlots (workers : List Worker) :
    ((phaseWorkerSlots workers).map Prod.fst).Nodup := by
  rw [phaseWorkerSlots_eq_fold]
  exact keys_nodup_foldl_radd _ [] (by simp)

theorem capKey_mem_iff (workers : List Worker)
    (HW : ∀ w ∈ workers, ∀ s ∈ workerParsedSlots w, ∃ q : ℕ, s = Json.num ((q : ℕ) : ℚ))
    (p : ℕ) :
    (natToString p ∈ (phaseWorkerSlots workers).map Prod.fst)
      ↔ phaseHasCapacity workers p = true := by
  rw [capKeys_mem workers HW]
  constructor
  · rintro ⟨q, hq, hcap⟩
    rw [natToString_injective hq]
    exact hcap
  · intro h
    exact ⟨p, rfl, h⟩

theorem spread_sum (workers : List Worker)
    (HW : ∀ w ∈ workers, ∀ s ∈ workerParsedSlots w, ∃ q : ℕ, s = Json.num ((q : ℕ) : ℚ))
    (p : ℕ) (c : ℚ) :
    (((((phaseWorkerSlots workers).map Prod.fst).map fun k => (keyViaParseInt k, c)).filter
        (·.1 == natToString p)).map (·.2)).sum
      = if phaseHasCapacity workers p = true then c else 0 := by
  rw [sum_map_snd_filter_key (natToString p) c _
      (by
        intro e he
        obtain ⟨k, _, rfl⟩ := List.mem_map.1 he
        rfl),
    List.countP_map]
  have h1 : ((phaseWorkerSlots workers).map Prod.fst).countP
      ((fun e : String × ℚ => e.1 == natToString p) ∘ fun k => (keyViaParseInt k, c))
      = ((phaseWorkerSlots workers).map Prod.fst).countP (· == natToString p) := by
    refine List.countP_congr fun k hk => ?_
    obtain ⟨q, rfl, _⟩ := (capKeys_mem workers HW k).1 hk
    show (keyViaParseInt (natToString q) == natToString p) = true
      ↔ (natToString q == natToString p) = true
    rw [keyViaParseInt_natToString]
  rw [h1, countP_beq_nodup _ (keys_nodup_phaseWorkerSlots workers) (natToString p)]
  by_cases hc : phaseHasCapacity workers p = true
  · rw [if_pos ((capKey_mem_iff workers HW p).2 hc), if_pos hc]
    push_cast
    ring
  · rw [if_neg (fun hm => hc ((capKey_mem_iff workers HW p).1 hm)), if_neg hc]
    simp

theorem spread_any (workers : List Worker)
    (HW : ∀ w ∈ workers, ∀ s ∈ workerParsedSlots w, ∃ q : ℕ, s = Json.num ((q : ℕ) : ℚ))
    (p : ℕ) (c : ℚ) :
    ((((phaseWorkerSlots workers).map Prod.fst).map fun k => (keyViaParseInt k, c)).any
        (·.1 == natToString p))
      = phaseHasCapacity workers p := by
  rw [any_map']
  have h1 : (((phaseWorkerSlots workers).map Prod.fst).any
        fun k => ((keyViaParseInt k, c).1 == natToString p))
      = ((phaseWorkerSlots workers).map Prod.fst).any (· == natToString p) := by
    refine any_congr' _ _ _ fun k hk => ?_
    obtain ⟨q, rfl, _⟩ := (capKeys_mem workers HW k).1 hk
    show (keyViaParseInt (natToString q) == natToString p) = (natToString q == natToString p)
    rw [keyViaParseInt_natToString]
  rw [h1]
  rw [Bool.eq_iff_iff, any_beq', capKey_mem_iff workers HW p]

theorem taskParsedPhaseVals_arr (t : Task) (hP : ¬t.PreferredPhases = "")
    (ps : List Json) (hj : jsonParse t.PreferredPhases = some (Json.arr ps)) :
    taskParsedPhaseVals t = ps := by
  unfold taskParsedPhaseVals
  rw [if_neg hP, hj]

theorem list_phase_sum (_workers : List Worker) (t : Task)
    (HTt : ∀ x ∈ taskParsedPhaseVals t, ∃ q : ℕ, x = Json.num ((q : ℕ) : ℚ))
    (hP : ¬t.PreferredPhases = "") (ps : List Json)
    (hj : jsonParse t.PreferredPhases = some (Json.arr ps)) (p : ℕ) (c : ℚ) :
    (((ps.map fun x => (jsonKey x, c)).filter (·.1 == natToString p)).map (·.2)).sum
      = ((ps.countP fun x => isNumVal x p : ℕ) : ℚ) * c := by
  rw [sum_map_snd_filter_key (natToString p) c _
      (by
        intro e he
        obtain ⟨x, _, rfl⟩ := List.mem_map.1 he
        rfl),
    List.countP_map]
  refine congrArg (fun n : ℕ => ((n : ℕ) : ℚ) * c) ?_
  refine List.countP_congr fun x hx => ?_
  have hx' : x ∈ taskParsedPhaseVals t := by
    rw [taskParsedPhaseVals_arr t hP ps hj]
    exact hx
  obtain ⟨q, rfl⟩ := HTt x hx'
  show (jsonKey (Json.num ((q : ℕ) : ℚ)) == natToString p) = true
    ↔ isNumVal (Json.num ((q : ℕ) : ℚ)) p = true
  rw [jsonKey_natCast, natToString_beq, isNumVal_natCast]

theorem task_demand_sum (workers : List Worker)
    (HW : ∀ w ∈ workers, ∀ s ∈ workerParsedSlots w, ∃ q : ℕ, s = Json.num ((q : ℕ) : ℚ))
    (t : Task)
    (HTt : ∀ x ∈ taskParsedPhaseVals t, ∃ q : ℕ, x = Json.num ((q : ℕ) : ℚ))
    (p : ℕ) :
    (((if t.PreferredPhases = "" then
          ((phaseWorkerSlots workers).map Prod.fst).map fun k => (keyViaParseInt k, t.Duration)
        else
          match jsonParse t.PreferredPhases with
          | none => []
          | some (.arr []) =>
            ((phaseWorkerSlots workers).map Prod.fst).map fun k => (keyViaParseInt k, t.Duration)
          | some (.arr ps) => ps.map fun x => (jsonKey x, t.Duration)
          | some (.str "") =>
            ((phaseWorkerSlots workers).map Prod.fst).map fun k => (keyViaParseInt k, t.Duration)
          | some _ => []).filter (·.1 == natToString p)).map (·.2)).sum
      = taskDemandContrib workers t p := by
  unfold taskDemandContrib
  by_cases hP : t.PreferredPhases = ""
  · rw [if_pos hP, if_pos hP]
    exact spread_sum workers HW p t.Duration
  · rw [if_neg hP, if_neg hP]
    split
    · simp
    · rename_i hj
      exact spread_sum workers HW p t.Duration
    · rename_i ps hne hj
      exact list_phase_sum workers t HTt hP ps hj p t.Duration
    · rename_i hj
      exact spread_sum workers HW p t.Duration
    · simp

theorem task_touches_any (workers : List Worker)
    (HW : ∀ w ∈ workers, ∀ s ∈ workerParsedSlots w, ∃ q : ℕ, s = Json.num ((q : ℕ) : ℚ))
    (t : Task)
    (HTt : ∀ x ∈ taskParsedPhaseVals t, ∃ q : ℕ, x = Json.num ((q : ℕ) : ℚ))
    (p : ℕ) :
    ((if t.PreferredPhases = "" then
        ((phaseWorkerSlots workers).map Prod.fst).map fun k => (keyViaParseInt k, t.Duration)
      else
        match jsonParse t.PreferredPhases with
        | none => []
        | some (.arr []) =>
          ((phaseWorkerSlots workers).map Prod.fst).map fun k => (keyViaParseInt k, t.Duration)
        | some (.arr ps) => ps.map fun x => (jsonKey x, t.Duration)
        | some (.str "") =>
          ((phaseWorkerSlots workers).map Prod.fst).map fun k => (keyViaParseInt k, t.Duration)
        | some _ => []).any (·.1 == natToString p))
      = taskTouches workers t p := by
  unfold taskTouches
  by_cases hP : t.PreferredPhases = ""
  · rw [if_pos hP, if_pos hP]
    exact spread_any workers HW p t.Duration
  · rw [if_neg hP, if_neg hP]
    split
    · rfl
    · rename_i hj
      exact spread_any workers HW p t.Duration
    · rename_i ps hne hj
      rw [any_map']
      refine any_congr' _ _ ps fun x hx => ?_
      have hx' : x ∈ taskParsedPhaseVals t := by
        rw [taskParsedPhaseVals_arr t hP ps hj]
        exact hx
      obtain ⟨q, rfl⟩ := HTt x hx'
      show (jsonKey (Json.num ((q : ℕ) : ℚ)) == natToString p)
        = isNumVal (Json.num ((q : ℕ) : ℚ)) p
      rw [jsonKey_natCast, natToString_beq, isNumVal_natCast]
    · rename_i hj
      exact spread_any workers HW p t.Duration
    · rfl

theorem demand_value (tasks : List Task) (workers : List Worker)
    (HW : ∀ w ∈ workers, ∀ s ∈ workerParsedSlots w, ∃ q : ℕ, s = Json.num ((q : ℕ) : ℚ))
    (HT : ∀ t ∈ tasks, ∀ x ∈ taskParsedPhaseVals t, ∃ q : ℕ, x = Json.num ((q : ℕ) : ℚ))
    (p : ℕ) :
    (alook (tasks.foldl (taskPhaseContrib ((phaseWorkerSlots workers).map Prod.fst)) [])
        (natToString p)).getD 0
      = specDemand workers tasks p := by
  rw [usage_eq_fold, valOf_foldl_radd,
    show (alook ([] : NumRec) (natToString p)) = none from rfl, Option.getD_none, zero_add]
  unfold demandStream specDemand
  rw [List.filter_flatMap, List.map_flatMap, sum_flatMap]
  refine congrArg List.sum (List.map_congr_left fun t ht => ?_)
  exact task_demand_sum workers HW t (HT t ht) p

theorem usage_pres (tasks : List Task) (workers : List Worker)
    (HW : ∀ w ∈ workers, ∀ s ∈ workerParsedSlots w, ∃ q : ℕ, s = Json.num ((q : ℕ) : ℚ))
    (HT : ∀ t ∈ tasks, ∀ x ∈ taskParsedPhaseVals t, ∃ q : ℕ, x = Json.num ((q : ℕ) : ℚ))
    (p : ℕ) :
    (alook (tasks.foldl (taskPhaseContrib ((phaseWorkerSlots workers).map Prod.fst)) [])
        (natToString p)).isSome
      = phaseDemanded workers tasks p := by
  rw [usage_eq_fold, pres_foldl_radd,
    show (alook ([] : NumRec) (natToString p)) = none from rfl]
  simp only [Option.isSome_none, Bool.false_or]
  unfold demandStream phaseDemanded
  rw [List.any_flatMap]
  exact any_congr' _ _ tasks fun t ht => task_touches_any workers HW t (HT t ht) p

theorem usage_keys_shape (tasks : List Task) (workers : List Worker)
    (HW : ∀ w ∈ workers, ∀ s ∈ workerParsedSlots w, ∃ q : ℕ, s = Json.num ((q : ℕ) : ℚ))
    (HT : ∀ t ∈ tasks, ∀ x ∈ taskParsedPhaseVals t, ∃ q : ℕ, x = Json.num ((q : ℕ) : ℚ)) :
    ∀ k ∈ (tasks.foldl (taskPhaseContrib ((phaseWorkerSlots workers).map Prod.fst)) []).map
        Prod.fst,
      ∃ q : ℕ, k = natToString q := by
  intro k hk
  rw [mem_keys_iff_alook, usage_eq_fold, pres_foldl_radd,
    show (alook ([] : NumRec) k) = none from rfl] at hk
  simp only [Option.isSome_none, Bool.false_or] at hk
  obtain ⟨e, he, hek⟩ := List.any_eq_true.1 hk
  rw [demandStream, List.mem_flatMap] at he
  obtain ⟨t, ht, hbr⟩ := he
  have hkey : ∃ q : ℕ, e.1 = natToString q := by
    by_cases hP : t.PreferredPhases = ""
    · rw [if_pos hP] at hbr
      obtain ⟨k', hk', rfl⟩ := List.mem_map.1 hbr
      obtain ⟨q, rfl, _⟩ := (capKeys_mem workers HW k').1 hk'
      exact ⟨q, by rw [keyViaParseInt_natToString]⟩
    · rw [if_neg hP] at hbr
      split at hbr
      · simp at hbr
      · obtain ⟨k', hk', rfl⟩ := List.mem_map.1 hbr
        obtain ⟨q, rfl, _⟩ := (capKeys_mem workers HW k').1 hk'
        exact ⟨q, by rw [keyViaParseInt_natToString]⟩
      · rename_i ps hne hj
        obtain ⟨x, hx, rfl⟩ := List.mem_map.1 hbr
        have hx' : x ∈ taskParsedPhaseVals t := by
          rw [taskParsedPhaseVals_arr t hP ps hj]
          exact hx
        obtain ⟨q, rfl⟩ := HT t ht x hx'
        exact ⟨q, by rw [jsonKey_natCast]⟩
      · obtain ⟨k', hk', rfl⟩ := List.mem_map.1 hbr
        obtain ⟨q, rfl, _⟩ := (capKeys_mem workers HW k').1 hk'
        exact ⟨q, by rw [keyViaParseInt_natToString]⟩
      · simp at hbr
  obtain ⟨q, hq⟩ := hkey
  exact ⟨q, by rw [← eq_of_beq hek, hq]⟩

/-- C7 (amended): with numeric slot and phase values, `checkPhaseSlotSaturation`
warns exactly on the demanded phases — those receiving a demand contribution
from some task — where total task demand exceeds total worker capacity,
reporting both figures. -/
theorem phase_saturation_characterization (tasks : List Task) (workers : List Worker)
    (HW : ∀ w ∈ workers, ∀ s ∈ workerParsedSlots w, ∃ q : ℕ, s = Json.num ((q : ℕ) : ℚ))
    (HT : ∀ t ∈ tasks, ∀ x ∈ taskParsedPhaseVals t, ∃ q : ℕ, x = Json.num ((q : ℕ) : ℚ)) :
    (∀ p : ℕ, phaseDemanded workers tasks p = true →
        specCapacity workers p < specDemand workers tasks p →
        satWarning p (specDemand workers tasks p) (specCapacity workers p)
          ∈ checkPhaseSlotSaturation tasks workers)
    ∧ ∀ e ∈ checkPhaseSlotSaturation tasks workers, ∃ p : ℕ,
        e = satWarning p (specDemand workers tasks p) (specCapacity workers p)
          ∧ phaseDemanded workers tasks p = true
          ∧ specCapacity workers p < specDemand workers tasks p := by
  have hck : checkPhaseSlotSaturation tasks workers
      = (tasks.foldl (taskPhaseContrib ((phaseWorkerSlots workers).map Prod.fst)) []).flatMap
          (fun e =>
            if (alook (phaseWorkerSlots workers) (keyViaParseInt e.1)).getD 0 < e.2 then
              [⟨"phase_saturation",
                "Phase " ++ keyViaParseInt e.1 ++ " is oversubscribed (" ++ qToString e.2 ++
                  " duration units needed but only "
                  ++ qToString ((alook (phaseWorkerSlots workers) (keyViaParseInt e.1)).getD 0)
                  ++ " slots available)",
                "system", none, .warning, none⟩]
            else []) := rfl
  constructor
  · intro p hdem hlt
    have hsome : (alook (tasks.foldl
        (taskPhaseContrib ((phaseWorkerSlots workers).map Prod.fst)) [])
          (natToString p)).isSome := by
      rw [usage_pres tasks workers HW HT p]
      exact hdem
    obtain ⟨d, hd⟩ := Option.isSome_iff_exists.1 hsome
    have hdval : d = specDemand workers tasks p := by
      have hv := demand_value tasks workers HW HT p
      rw [hd] at hv
      simpa using hv
    have hmem : (natToString p, d) ∈ tasks.foldl
        (taskPhaseContrib ((phaseWorkerSlots workers).map Prod.fst)) [] := mem_of_alook hd
    rw [hck]
    refine List.mem_flatMap.2 ⟨(natToString p, d), hmem, ?_⟩
    show satWarning p (specDemand workers tasks p) (specCapacity workers p)
      ∈ if (alook (phaseWorkerSlots workers) (keyViaParseInt (natToString p))).getD 0 < d then _ else _
    rw [keyViaParseInt_natToString, capacity_value workers HW p, hdval]
    rw [if_pos hlt]
    exact List.mem_singleton.2 rfl
  · intro e he
    rw [hck] at he
    obtain ⟨⟨k, d⟩, hmem, hbody⟩ := List.mem_flatMap.1 he
    have hknd : ((tasks.foldl
        (taskPhaseContrib ((phaseWorkerSlots workers).map Prod.fst)) []).map
          Prod.fst).Nodup := by
      rw [usage_eq_fold]
      exact keys_nodup_foldl_radd _ [] (by simp)
    have hkmem : k ∈ (tasks.foldl
        (taskPhaseContrib ((phaseWorkerSlots workers).map Prod.fst)) []).map Prod.fst :=
      List.mem_map.2 ⟨(k, d), hmem, rfl⟩
    obtain ⟨q, rfl⟩ := usage_keys_shape tasks workers HW HT k hkmem
    have halook : alook (tasks.foldl
        (taskPhaseContrib ((phaseWorkerSlots workers).map Prod.fst)) [])
          (natToString q) = some d := alook_of_mem_nodup hknd hmem
    have hd : d = specDemand workers tasks q := by
      have hv := demand_value tasks workers HW HT q
      rw [halook] at hv
      simpa using hv
    have hdem : phaseDemanded workers tasks q = true := by
      rw [← usage_pres tasks workers HW HT q, halook]
      rfl
    have hbody2 : e ∈ (if (alook (phaseWorkerSlots workers)
        (keyViaParseInt (natToString q))).getD 0 < d then
          [⟨"phase_saturation",
            "Phase " ++ keyViaParseInt (natToString q) ++ " is oversubscribed ("
              ++ qToString d ++ " duration units needed but only "
              ++ qToString ((alook (phaseWorkerSlots workers)
                  (keyViaParseInt (natToString q))).getD 0)
              ++ " slots available)",
            "system", none, .warning, none⟩]
        else ([] : List ValidationError)) := hbody
    rw [keyViaParseInt_natToString, capacity_value workers HW q] at hbody2
    by_cases hlt : specCapacity workers q < d
    · rw [if_pos hlt] at hbody2
      refine ⟨q, ?_, hdem, by rw [← hd]; exact hlt⟩
      have he2 : e = satWarning q d (specCapacity workers q) := by
        simpa using hbody2
      rw [he2, hd]
    · rw [if_neg hlt] at hbody2
      simp at hbody2

/-- C7 counterexample to the unrestricted "exactly": a worker with negative
`MaxLoadPerPhase` gives phase 1 capacity `-1`; with no tasks, phase 1's demand
`0` exceeds that capacity, yet no warning is emitted, because only phases that
receive a demand contribution are checked. -/
theorem phase_saturation_no_demand_cex :
    checkPhaseSlotSaturation [] [⟨"W1", "W", "", "[1]", -1, "", none⟩] = []
    ∧ specCapacity [⟨"W1", "W", "", "[1]", -1, "", none⟩] 1
        < specDemand [⟨"W1", "W", "", "[1]", -1, "", none⟩] [] 1 := by
  constructor
  · decide
  · have hc : specCapacity [⟨"W1", "W", "", "[1]", -1, "", none⟩] 1
        = ((1 : ℕ) : ℚ) * ((-1 : ℤ) : ℚ) + 0 := rfl
    have hd : specDemand [⟨"W1", "W", "", "[1]", -1, "", none⟩] [] 1 = 0 := rfl
    rw [hc, hd]
    push_cast
    norm_num

/-- C7 witness scenario: one worker available in phase 1 with max load 2 and
one task of duration 5 preferring phase 1 yield a saturation warning for
phase 1 reporting demand 5 against capacity 2. -/
theorem phase_saturation_witness :
    satWarning 1
        (specDemand [⟨"W1", "W", "", "[1]", 2, "", none⟩]
          [⟨"T1", "T", "", 5, "", "[1]", none⟩] 1)
        (specCapacity [⟨"W1", "W", "", "[1]", 2, "", none⟩] 1)
      ∈ checkPhaseSlotSaturation [⟨"T1", "T", "", 5, "", "[1]", none⟩]
          [⟨"W1", "W", "", "[1]", 2, "", none⟩]
    ∧ specDemand [⟨"W1", "W", "", "[1]", 2, "", none⟩]
        [⟨"T1", "T", "", 5, "", "[1]", none⟩] 1 = 5
    ∧ specCapacity [⟨"W1", "W", "", "[1]", 2, "", none⟩] 1 = 2 := by
  have hd : specDemand [⟨"W1", "W", "", "[1]", 2, "", none⟩]
      [⟨"T1", "T", "", 5, "", "[1]", none⟩] 1 = ((1 : ℕ) : ℚ) * (5 : ℚ) + 0 := rfl
  have hc : specCapacity [⟨"W1", "W", "", "[1]", 2, "", none⟩] 1
      = ((1 : ℕ) : ℚ) * ((2 : ℤ) : ℚ) + 0 := rfl
  refine ⟨?_, by rw [hd]; norm_num, by rw [hc]; push_cast; norm_num⟩
  refine (phase_saturation_characterization
      [⟨"T1", "T", "", 5, "", "[1]", none⟩] [⟨"W1", "W", "", "[1]", 2, "", none⟩]
      ?_ ?_).1 1 (by decide) ?_
  · intro w hw s hs
    have hw1 : w = ⟨"W1", "W", "", "[1]", 2, "", none⟩ := by
      simpa using hw
    subst hw1
    rw [show workerParsedSlots ⟨"W1", "W", "", "[1]", 2, "", none⟩
        = [Json.num ((1 : ℕ) : ℚ)] from rfl] at hs
    refine ⟨1, ?_⟩
    simpa using hs
  · intro t ht x hx
    have ht1 : t = ⟨"T1", "T", "", 5, "", "[1]", none⟩ := by
      simpa using ht
    subst ht1
    rw [show taskParsedPhaseVals ⟨"T1", "T", "", 5, "", "[1]", none⟩
        = [Json.num ((1 : ℕ) : ℚ)] from rfl] at hx
    refine ⟨1, ?_⟩
    simpa using hx
  · rw [hd, hc]
    push_cast
    norm_num

end SheetSeer
